import Mathlib

/-!
A verification development for the chunked two-tier embedding cache of the
CacheEmbedding repository.  The definitions below are a shallow embedding of

* `ChunkParamMgr`      (src/recsys/modules/embeddings/chunk_param_mgr.py), and
* `ChunkCUDAWeightMgr` (src/recsys/modules/embeddings/freq_aware_embedding.py).

Modelling conventions:

* Python integers are `Nat` where they are always non-negative (chunk ids,
  lengths, counters) and `Int` where the code uses the `-1` sentinel
  (slot ids returned by `_find_free_cuda_slot`) or values derived from it
  (device offsets `slot_id * chunk_size`).
* The flat weight buffers (`cpu_weight.view(-1)` style) are total functions
  from element positions to an abstract element type `α`; a chunk `c` occupies
  cpu elements `[c*chunk_size*embedding_dim, (c+1)*chunk_size*embedding_dim)`.
* Python dicts that are only scanned (`cached_chunk_table`) are association
  lists in insertion order: `d[k] = v` appends, `d.pop(k)` erases the entry.
* The `torch.nn.Embedding` lookup tables (`cpu_chunk_embedding`, `CCT`) are
  total functions updated pointwise, exactly like the in-place row writes of
  the source.
* `AssertionError` from the capacity assert and the `RuntimeError` of `_evict`
  become the two constructors of `CacheErr`.  An operation that can raise
  returns the error together with the state the object holds at raise time.
-/

namespace CacheEmbedding

/-- The two exceptions the cache manager can raise: the capacity assertion in
`prepare_ids` and the RuntimeError("Can not evict a chunk") of `_evict`. -/
inductive CacheErr where
  | capacityExceeded
  | evictionImpossible
deriving DecidableEq

/-- One entry of `cached_chunk_table`: (slot id, (chunk id, device offset in rows)). -/
abbrev SlotEntry := Int × Nat × Int

/-- `_chunk_in_cuda`: scan the cached chunk table for the chunk id. -/
def chunkInCuda (table : List SlotEntry) (chunkId : Nat) : Bool :=
  table.any fun e => e.2.1 == chunkId

/-- membership of a slot id among the keys of the cached chunk table. -/
def slotOccupied (table : List SlotEntry) (slot : Int) : Bool :=
  table.any fun e => e.1 == slot

/-- `_find_free_cuda_slot`: the first slot index in `[0, cuda_chunk_num)` that is
not a key of the cached chunk table, and `-1` when every slot is occupied. -/
def findFreeCudaSlot (cap : Nat) (table : List SlotEntry) : Int :=
  match (List.range cap).find? (fun i => ! slotOccupied table (Int.ofNat i)) with
  | some i => Int.ofNat i
  | none => -1

/-- The scan of `_evict` over the cached chunk table: `min_chunk_id` starts at
the sentinel `2 * chunk_num`; an entry replaces the current selection when its
chunk id is strictly below the running minimum and not in the backlist. -/
def evictLoop (backlist : List Nat) :
    List SlotEntry → Nat → Option SlotEntry → Option SlotEntry
  | [], _, sel => sel
  | e :: rest, m, sel =>
    if e.2.1 < m ∧ e.2.1 ∉ backlist then evictLoop backlist rest e.2.1 (some e)
    else evictLoop backlist rest m sel

/-- The victim selection of `_evict` (identical in both manager classes). -/
def evictSelect (chunkNum : Nat) (backlist : List Nat) (table : List SlotEntry) :
    Option SlotEntry :=
  evictLoop backlist table (2 * chunkNum) none

/-- dict lookup in `chunk_id_cuda_offset`. -/
def lookupKey (m : List (Nat × Int)) (k : Nat) : Option Int :=
  (m.find? fun p => p.1 == k).map fun p => p.2

/-- `d.pop(k)` on `chunk_id_cuda_offset`. -/
def eraseKey (m : List (Nat × Int)) (k : Nat) : List (Nat × Int) :=
  m.eraseP fun p => p.1 == k

/-- `d[k] = v` on a python dict: overwrite in place when the key exists,
append otherwise. -/
def setKey (m : List (Nat × Int)) (k : Nat) (v : Int) : List (Nat × Int) :=
  if m.any (fun p => p.1 == k) then m.map (fun p => if p.1 == k then (k, v) else p)
  else m ++ [(k, v)]

/-- Bulk copy of `len` elements from the cpu buffer (base `srcBase`) into the
cuda buffer at base `dstBase`, as one `narrow(...).copy_` call. -/
def copyToCuda {α : Type} (src : Nat → α) (srcBase : Nat) (dst : Int → α)
    (dstBase : Int) (len : Nat) : Int → α :=
  fun i => if dstBase ≤ i ∧ i < dstBase + len then src (srcBase + (i - dstBase).toNat) else dst i

/-- Bulk copy of `len` elements from the cuda buffer (base `srcBase`) into the
cpu buffer at base `dstBase`, as one `narrow(...).copy_` call. -/
def copyToCpu {α : Type} (src : Int → α) (srcBase : Int) (dst : Nat → α)
    (dstBase len : Nat) : Nat → α :=
  fun i => if dstBase ≤ i ∧ i < dstBase + len then src (srcBase + ((i - dstBase : Nat) : Int))
           else dst i

/-- The static configuration shared by the operations: chunk size, number of
cuda slots (`cuda_chunk_num`), total number of chunks, embedding dimension,
and the index mapping table (the pair of `IMP_*` embeddings) built by
`reorder`: row id to (chunk id, offset in chunk). -/
structure MgrCfg where
  chunkSize : Nat
  cudaChunkNum : Nat
  chunkNum : Nat
  embeddingDim : Nat
  imt : Nat → Nat × Nat

/-- The mutable state of a `ChunkParamMgr` object. `chunkFlag` is the
`cpu_chunk_embedding` (`true` encodes the value 1, chunk on cpu), `cct` is the
`CCT` embedding (chunk id to last written device offset). -/
structure ParamState (α : Type) where
  cachedChunkTable : List SlotEntry
  cachedChunkIds : List Nat
  chunkIdCudaOffset : List (Nat × Int)
  chunkFlag : Nat → Bool
  cct : Nat → Int
  evictBacklist : List Nat
  cpuWeight : Nat → α
  cudaWeight : Int → α
  numHitsHistory : List Nat
  numMissHistory : List Nat
  numWriteBackHistory : List Nat
  cpuToCudaNumel : Nat
  cudaToCpuNumel : Nat

/-- `ChunkParamMgr._evict`: pick the resident chunk with the smallest chunk id
outside the backlist (RuntimeError when none exists, with the state untouched),
write its full payload back to the cpu weight, then drop it from the slot
table, the offset dict, the resident-id list, and flag it on cpu.
Returns the freed slot id. -/
def evictChunk {α : Type} (cfg : MgrCfg) (s : ParamState α) :
    Except CacheErr (Int × ParamState α) :=
  match evictSelect cfg.chunkNum s.evictBacklist s.cachedChunkTable with
  | none => .error .evictionImpossible
  | some (slot, chunk, off) =>
    .ok (slot,
      { s with
        cpuWeight := copyToCpu s.cudaWeight (off * cfg.embeddingDim) s.cpuWeight
          (chunk * cfg.chunkSize * cfg.embeddingDim) (cfg.chunkSize * cfg.embeddingDim),
        cachedChunkTable := s.cachedChunkTable.eraseP (fun e => e.1 == slot),
        chunkIdCudaOffset := eraseKey s.chunkIdCudaOffset chunk,
        cachedChunkIds := s.cachedChunkIds.erase chunk,
        chunkFlag := fun c => if c = chunk then true else s.chunkFlag c,
        cudaToCpuNumel := s.cudaToCpuNumel + cfg.chunkSize * cfg.embeddingDim })

/-- The tail of `ChunkParamMgr._admit` once a slot is fixed: copy the chunk
payload from cpu to the slot region, append the table entry, record the chunk
as resident, flag it on cuda, and write its device offset into the dict and
the `CCT` embedding. -/
def admitIntoSlot {α : Type} (cfg : MgrCfg) (chunkId : Nat) (slot : Int)
    (s : ParamState α) : ParamState α :=
  let off : Int := slot * cfg.chunkSize
  { s with
    cudaWeight := copyToCuda s.cpuWeight (chunkId * cfg.chunkSize * cfg.embeddingDim)
      s.cudaWeight (off * cfg.embeddingDim) (cfg.chunkSize * cfg.embeddingDim),
    cachedChunkTable := s.cachedChunkTable ++ [(slot, chunkId, off)],
    cachedChunkIds := s.cachedChunkIds ++ [chunkId],
    chunkFlag := fun c => if c = chunkId then false else s.chunkFlag c,
    chunkIdCudaOffset := setKey s.chunkIdCudaOffset chunkId off,
    cct := fun c => if c = chunkId then off else s.cct c,
    cpuToCudaNumel := s.cpuToCudaNumel + cfg.chunkSize * cfg.embeddingDim }

/-- `ChunkParamMgr._admit`: take a free slot, evicting one chunk first when the
table is full (`_evict` returns the freed slot there). -/
def admitChunk {α : Type} (cfg : MgrCfg) (chunkId : Nat) (s : ParamState α) :
    Except CacheErr (ParamState α) :=
  let slotId := findFreeCudaSlot cfg.cudaChunkNum s.cachedChunkTable
  if slotId == -1 then
    match evictChunk cfg s with
    | .error e => .error e
    | .ok (slot, s1) => .ok (admitIntoSlot cfg chunkId slot s1)
  else .ok (admitIntoSlot cfg chunkId slotId s)

/-- `ChunkParamMgr._prepare_chunks_on_cuda`: admit each listed chunk, skipping
chunks already resident, evicting first when no slot is free.  On an
exception the state reached so far is kept. -/
def prepareChunksOnCuda {α : Type} (cfg : MgrCfg) :
    List Nat → ParamState α → Option CacheErr × ParamState α
  | [], s => (none, s)
  | chunkId :: rest, s =>
    if chunkInCuda s.cachedChunkTable chunkId then prepareChunksOnCuda cfg rest s
    else
      match (if findFreeCudaSlot cfg.cudaChunkNum s.cachedChunkTable == -1 then
               (evictChunk cfg s).map (fun p => p.2) else .ok s) with
      | .error e => (some e, s)
      | .ok s1 =>
        match admitChunk cfg chunkId s1 with
        | .error e => (some e, s1)
        | .ok s2 => prepareChunksOnCuda cfg rest s2

/-- insertion into a strictly increasing list, dropping duplicates. -/
def insertUnique (x : Nat) : List Nat → List Nat
  | [] => [x]
  | y :: ys => if x < y then x :: y :: ys else if x = y then y :: ys else y :: insertUnique x ys

/-- `torch.unique`: the distinct values in ascending order. -/
def uniqueSorted (l : List Nat) : List Nat := l.foldr insertUnique []

/-- The working set of a batch: the distinct chunk ids its row ids reference,
`torch.unique(IMP_chunkid_Embedding(ids))`. -/
def workingSet (cfg : MgrCfg) (ids : List Nat) : List Nat :=
  uniqueSorted (ids.map fun i => (cfg.imt i).1)

/-- `_id_to_cached_cuda_id` for one row id: `CCT(chunk_id) + offset_in_chunk`. -/
def addressOf {α : Type} (cfg : MgrCfg) (s : ParamState α) (i : Nat) : Int :=
  s.cct (cfg.imt i).1 + ((cfg.imt i).2 : Int)

/-- `ChunkParamMgr.prepare_ids`: capacity assert, set the backlist to the
working set, split it into hits and misses through `cpu_chunk_embedding`
(value 1 means miss), append the three history entries, admit the misses,
clear the backlist, and translate every input id through `CCT`.  The returned
state is the object state even when an exception is raised. -/
def prepareIds {α : Type} (cfg : MgrCfg) (ids : List Nat) (s : ParamState α) :
    Except CacheErr (List Int) × ParamState α :=
  let W := workingSet cfg ids
  if cfg.cudaChunkNum < W.length then (.error .capacityExceeded, s)
  else
    let s0 := { s with evictBacklist := W }
    let misses := W.filter fun c => s0.chunkFlag c
    let s1 := { s0 with
      numHitsHistory := s0.numHitsHistory ++ [W.length - misses.length],
      numMissHistory := s0.numMissHistory ++ [misses.length],
      numWriteBackHistory := s0.numWriteBackHistory ++ [0] }
    match prepareChunksOnCuda cfg misses s1 with
    | (some e, s2) => (.error e, s2)
    | (none, s2) =>
      let s3 := { s2 with evictBacklist := [] }
      (.ok (ids.map fun i => addressOf cfg s3 i), s3)

/-- The fresh state built by `__init__`: empty slot table, every chunk flagged
on cpu, empty backlist, empty histories.  `cct0` stands for the uninitialized
contents of the `CCT` embedding and `z` for the zero element filling
`cuda_partial_weight`. -/
def ParamState.mk0 {α : Type} (w : Nat → α) (z : α) (cct0 : Nat → Int) : ParamState α :=
  { cachedChunkTable := [], cachedChunkIds := [], chunkIdCudaOffset := [],
    chunkFlag := fun _ => true, cct := cct0, evictBacklist := [],
    cpuWeight := w, cudaWeight := fun _ => z,
    numHitsHistory := [], numMissHistory := [], numWriteBackHistory := [],
    cpuToCudaNumel := 0, cudaToCpuNumel := 0 }

/-- The entry returned by `evictSelect` is an entry of the table, its chunk is
outside the backlist, and its chunk id is below the running minimum (or it was
the incoming selection). -/
theorem evictLoop_result (bl : List Nat) :
    ∀ (t : List SlotEntry) (m : Nat) (sel : Option SlotEntry) (e : SlotEntry),
      evictLoop bl t m sel = some e →
      (e ∈ t ∧ e.2.1 ∉ bl ∧ e.2.1 < m) ∨ sel = some e := by
  intro t
  induction t with
  | nil => intro m sel e h; exact Or.inr h
  | cons a rest ih =>
    intro m sel e h
    rw [evictLoop] at h
    by_cases hc : a.2.1 < m ∧ a.2.1 ∉ bl
    · rw [if_pos hc] at h
      rcases ih a.2.1 (some a) e h with ⟨h1, h2, h3⟩ | h4
      · exact Or.inl ⟨List.mem_cons_of_mem _ h1, h2, lt_trans h3 hc.1⟩
      · have hae : a = e := by injection h4
        subst hae
        exact Or.inl ⟨List.mem_cons_self _ _, hc.2, hc.1⟩
    · rw [if_neg hc] at h
      rcases ih m sel e h with ⟨h1, h2, h3⟩ | h4
      · exact Or.inl ⟨List.mem_cons_of_mem _ h1, h2, h3⟩
      · exact Or.inr h4

/-- `evictSelect` only returns entries of the table, with a chunk outside the
backlist and below the sentinel. -/
theorem evictSelect_result {cn : Nat} {bl : List Nat} {t : List SlotEntry}
    {e : SlotEntry} (h : evictSelect cn bl t = some e) :
    e ∈ t ∧ e.2.1 ∉ bl ∧ e.2.1 < 2 * cn := by
  rcases evictLoop_result bl t (2 * cn) none e h with h1 | h2
  · exact h1
  · cases h2

/-- A successful `_evict` shortens the cached chunk table by one. -/
theorem evictChunk_table_length {α : Type} {cfg : MgrCfg} {s : ParamState α}
    {slot : Int} {s1 : ParamState α} (h : evictChunk cfg s = .ok (slot, s1)) :
    s1.cachedChunkTable.length + 1 = s.cachedChunkTable.length := by
  unfold evictChunk at h
  cases hsel : evictSelect cfg.chunkNum s.evictBacklist s.cachedChunkTable with
  | none => rw [hsel] at h; cases h
  | some e =>
    obtain ⟨sl, ch, off⟩ := e
    rw [hsel] at h
    cases h
    have hmem := (evictSelect_result hsel).1
    exact List.length_eraseP_add_one hmem (by simp)

/-- `ChunkParamMgr.flush`: evict while the cached chunk table is non-empty. -/
def flushChunks {α : Type} (cfg : MgrCfg) (s : ParamState α) :
    Except CacheErr (ParamState α) :=
  if h : s.cachedChunkTable = [] then .ok s
  else
    match h2 : evictChunk cfg s with
    | .error e => .error e
    | .ok (_, s1) => flushChunks cfg s1
termination_by s.cachedChunkTable.length
decreasing_by
  have := evictChunk_table_length h2
  omega

/-! ### The `ChunkCUDAWeightMgr` variant (freq_aware_embedding.py)

Its `cuda_partial_weight` is a flat 1-D buffer; its `_evict` and `_admit`
narrow that buffer at the row offset `slot_id * chunk_size` (not scaled by the
embedding dimension) for a length of `chunk_size * embedding_dim` elements,
and its `_admit` does not update `slot_id` after the eviction branch, so the
`-1` sentinel flows into the slot offset there.  Its `prepare_ids` has no
capacity assert and its final `self.evict_backlist` line is a bare expression,
so the backlist is kept after the call. -/

/-- The mutable state of a `ChunkCUDAWeightMgr` object. -/
structure CudaState (α : Type) where
  cachedChunkTable : List SlotEntry
  chunkIdCudaOffset : List (Nat × Int)
  evictBacklist : List Nat
  cpuWeight : Nat → α
  cudaWeight : Int → α
  cpuToCudaNumel : Nat
  cudaToCpuNumel : Nat

/-- `ChunkCUDAWeightMgr._evict` (no return value; the narrow starts at the row
offset `min_offset`, not `min_offset * embedding_dim`). -/
def cudaEvictChunk {α : Type} (cfg : MgrCfg) (s : CudaState α) :
    Except CacheErr (CudaState α) :=
  match evictSelect cfg.chunkNum s.evictBacklist s.cachedChunkTable with
  | none => .error .evictionImpossible
  | some (slot, chunk, off) =>
    .ok { s with
      cpuWeight := copyToCpu s.cudaWeight off s.cpuWeight
        (chunk * cfg.chunkSize * cfg.embeddingDim) (cfg.chunkSize * cfg.embeddingDim),
      cachedChunkTable := s.cachedChunkTable.eraseP (fun e => e.1 == slot),
      chunkIdCudaOffset := eraseKey s.chunkIdCudaOffset chunk,
      cudaToCpuNumel := s.cudaToCpuNumel + cfg.chunkSize * cfg.embeddingDim }

/-- The tail of `ChunkCUDAWeightMgr._admit` once `slot_id` is fixed. -/
def cudaAdmitIntoSlot {α : Type} (cfg : MgrCfg) (chunkId : Nat) (slot : Int)
    (s : CudaState α) : CudaState α :=
  let off : Int := slot * cfg.chunkSize
  { s with
    cudaWeight := copyToCuda s.cpuWeight (chunkId * cfg.chunkSize * cfg.embeddingDim)
      s.cudaWeight off (cfg.chunkSize * cfg.embeddingDim),
    cachedChunkTable := s.cachedChunkTable ++ [(slot, chunkId, off)],
    chunkIdCudaOffset := setKey s.chunkIdCudaOffset chunkId off,
    cpuToCudaNumel := s.cpuToCudaNumel + cfg.chunkSize * cfg.embeddingDim }

/-- `ChunkCUDAWeightMgr._admit`: in the eviction branch `slot_id` is not
reassigned, so the admission happens with `slot_id = -1`. -/
def cudaAdmitChunk {α : Type} (cfg : MgrCfg) (chunkId : Nat) (s : CudaState α) :
    Except CacheErr (CudaState α) :=
  let slotId := findFreeCudaSlot cfg.cudaChunkNum s.cachedChunkTable
  if slotId == -1 then
    match cudaEvictChunk cfg s with
    | .error e => .error e
    | .ok s1 => .ok (cudaAdmitIntoSlot cfg chunkId slotId s1)
  else .ok (cudaAdmitIntoSlot cfg chunkId slotId s)

/-- `ChunkCUDAWeightMgr._prepare_cuda_chunks`. -/
def cudaPrepareChunks {α : Type} (cfg : MgrCfg) :
    List Nat → CudaState α → Option CacheErr × CudaState α
  | [], s => (none, s)
  | chunkId :: rest, s =>
    if chunkInCuda s.cachedChunkTable chunkId then cudaPrepareChunks cfg rest s
    else
      match (if findFreeCudaSlot cfg.cudaChunkNum s.cachedChunkTable == -1 then
               cudaEvictChunk cfg s else .ok s) with
      | .error e => (some e, s)
      | .ok s1 =>
        match cudaAdmitChunk cfg chunkId s1 with
        | .error e => (some e, s1)
        | .ok s2 => cudaPrepareChunks cfg rest s2

/-- `ChunkCUDAWeightMgr._id_to_cached_cuda_id`:
`chunk_id_cuda_offset[chunk_id] + offset_in_chunk`. -/
def cudaAddressOf {α : Type} (cfg : MgrCfg) (s : CudaState α) (i : Nat) : Int :=
  (lookupKey s.chunkIdCudaOffset (cfg.imt i).1).getD 0 + ((cfg.imt i).2 : Int)

/-- `ChunkCUDAWeightMgr.prepare_ids`: no capacity check; the working set is
collected into a python set (modelled in ascending order); the final
`self.evict_backlist` statement is a bare expression, so the backlist keeps
the working set after the call returns. -/
def cudaPrepareIds {α : Type} (cfg : MgrCfg) (ids : List Nat) (s : CudaState α) :
    Except CacheErr (List Int) × CudaState α :=
  let W := workingSet cfg ids
  let s0 := { s with evictBacklist := W }
  match cudaPrepareChunks cfg (W.filter fun c => ! chunkInCuda s0.cachedChunkTable c) s0 with
  | (some e, s1) => (.error e, s1)
  | (none, s1) => (.ok (ids.map fun i => cudaAddressOf cfg s1 i), s1)

/-- The fresh state built by `ChunkCUDAWeightMgr.__init__` (its
`cuda_partial_weight` is `torch.empty`, an arbitrary buffer `d0`). -/
def CudaState.mk0 {α : Type} (w : Nat → α) (d0 : Int → α) : CudaState α :=
  { cachedChunkTable := [], chunkIdCudaOffset := [], evictBacklist := [],
    cpuWeight := w, cudaWeight := d0, cpuToCudaNumel := 0, cudaToCpuNumel := 0 }

/-! ### `reorder` and the index mapping table -/

/-- frequency of an id in the `ids_freq_mapping` list. -/
def freqAt (freq : List Nat) (i : Nat) : Nat := freq.getD i 0

/-- insertion of an id into a list ordered by non-increasing frequency. -/
def insertByFreqDesc (freq : List Nat) (x : Nat) : List Nat → List Nat
  | [] => [x]
  | y :: ys => if freqAt freq y < freqAt freq x then x :: y :: ys
               else y :: insertByFreqDesc freq x ys

/-- `torch.argsort(freq, descending=True)`: a permutation of
`[0, freq.length)` along which the frequencies are non-increasing (the order
among equal frequencies is implementation defined; this model uses one). -/
def argsortDesc (freq : List Nat) : List Nat :=
  (List.range freq.length).foldr (insertByFreqDesc freq) []

/-- `ChunkParamMgr.reorder`: `sorted_idx` is the descending argsort of the
frequency list (or `arange(num_embeddings)` without one); position `id` of the
two `IMP_*` embeddings then receives `sorted_idx[id] // chunk_size` and
`sorted_idx[id] % chunk_size`. -/
def reorderIMT (freqMapping : Option (List Nat)) (numEmbeddings chunkSize : Nat) :
    Nat → Nat × Nat :=
  let sortedIdx := match freqMapping with
    | some freq => argsortDesc freq
    | none => List.range numEmbeddings
  fun i => (sortedIdx.getD i 0 / chunkSize, sortedIdx.getD i 0 % chunkSize)

/-- Modelled from the spec: the mapping described by the claim sentence
"ids ranked by descending frequency receive consecutive ranks and
chunk_id = rank / chunk_size, offset = rank % chunk_size" — the rank of an id
is its position in the descending-frequency order. -/
def specRankIMT (freq : List Nat) (chunkSize : Nat) (i : Nat) : Nat × Nat :=
  let rank := (argsortDesc freq).indexOf i
  (rank / chunkSize, rank % chunkSize)

/-! ### Basic lemmas on the helpers -/

theorem chunkInCuda_iff {table : List SlotEntry} {c : Nat} :
    chunkInCuda table c = true ↔ ∃ e ∈ table, e.2.1 = c := by
  simp only [chunkInCuda, List.any_eq_true, beq_iff_eq]

theorem slotOccupied_iff {table : List SlotEntry} {s : Int} :
    slotOccupied table s = true ↔ ∃ e ∈ table, e.1 = s := by
  simp only [slotOccupied, List.any_eq_true, beq_iff_eq]

theorem insertUnique_mem {x y : Nat} : ∀ {l : List Nat},
    y ∈ insertUnique x l ↔ y = x ∨ y ∈ l := by
  intro l
  induction l with
  | nil => simp [insertUnique]
  | cons z zs ih =>
    by_cases h1 : x < z
    · simp [insertUnique, if_pos h1]
    · by_cases h2 : x = z
      · subst h2
        simp only [insertUnique, if_neg h1, if_pos rfl]
        constructor
        · exact fun h => Or.inr h
        · rintro (rfl | h) <;> simp_all
      · simp only [insertUnique, if_neg h1, if_neg h2, List.mem_cons, ih]
        tauto

theorem insertUnique_pairwise {x : Nat} : ∀ {l : List Nat},
    l.Pairwise (· < ·) → (insertUnique x l).Pairwise (· < ·) := by
  intro l
  induction l with
  | nil => intro _; simp [insertUnique]
  | cons z zs ih =>
    intro hp
    rcases List.pairwise_cons.mp hp with ⟨hz, hzs⟩
    by_cases h1 : x < z
    · rw [insertUnique, if_pos h1]
      exact List.pairwise_cons.mpr ⟨by
        intro a ha
        rcases List.mem_cons.mp ha with rfl | ha
        · exact h1
        · exact lt_trans h1 (hz a ha), hp⟩
    · by_cases h2 : x = z
      · rw [insertUnique, if_neg h1, if_pos h2]; exact hp
      · rw [insertUnique, if_neg h1, if_neg h2]
        refine List.pairwise_cons.mpr ⟨?_, ih hzs⟩
        intro a ha
        rcases insertUnique_mem.mp ha with rfl | ha
        · omega
        · exact hz a ha

theorem uniqueSorted_pairwise (l : List Nat) : (uniqueSorted l).Pairwise (· < ·) := by
  induction l with
  | nil => simp [uniqueSorted]
  | cons x xs ih => exact insertUnique_pairwise ih

theorem uniqueSorted_nodup (l : List Nat) : (uniqueSorted l).Nodup :=
  (uniqueSorted_pairwise l).imp Nat.ne_of_lt

theorem uniqueSorted_mem {y : Nat} : ∀ {l : List Nat}, y ∈ uniqueSorted l ↔ y ∈ l := by
  intro l
  induction l with
  | nil => simp [uniqueSorted]
  | cons x xs ih =>
    show y ∈ insertUnique x (uniqueSorted xs) ↔ _
    rw [insertUnique_mem, List.mem_cons, ih]

theorem workingSet_nodup (cfg : MgrCfg) (ids : List Nat) : (workingSet cfg ids).Nodup :=
  uniqueSorted_nodup _

theorem workingSet_mem {cfg : MgrCfg} {ids : List Nat} {c : Nat} :
    c ∈ workingSet cfg ids ↔ ∃ i ∈ ids, (cfg.imt i).1 = c := by
  rw [workingSet, uniqueSorted_mem]
  simp

/-- A slot returned by `_find_free_cuda_slot` other than `-1` is a free slot
in range. -/
theorem findFreeCudaSlot_spec {cap : Nat} {table : List SlotEntry}
    (h : findFreeCudaSlot cap table ≠ -1) :
    0 ≤ findFreeCudaSlot cap table ∧ findFreeCudaSlot cap table < (cap : Int) ∧
      slotOccupied table (findFreeCudaSlot cap table) = false := by
  unfold findFreeCudaSlot at h ⊢
  cases hf : (List.range cap).find? (fun i => ! slotOccupied table (Int.ofNat i)) with
  | none => rw [hf] at h; simp at h
  | some i =>
    have hmem := List.mem_range.mp (List.mem_of_find?_eq_some hf)
    have hp := List.find?_some hf
    refine ⟨?_, ?_, ?_⟩
    · show (0 : Int) ≤ Int.ofNat i
      exact Int.ofNat_nonneg i
    · show Int.ofNat i < (cap : Int)
      rw [Int.ofNat_eq_coe]
      exact_mod_cast hmem
    · show slotOccupied table (Int.ofNat i) = false
      simpa using hp

/-- When `_find_free_cuda_slot` returns `-1`, every slot in range is occupied. -/
theorem findFreeCudaSlot_none {cap : Nat} {table : List SlotEntry}
    (h : findFreeCudaSlot cap table = -1) :
    ∀ i < cap, slotOccupied table (Int.ofNat i) = true := by
  unfold findFreeCudaSlot at h
  cases hf : (List.range cap).find? (fun i => ! slotOccupied table (Int.ofNat i)) with
  | none =>
    intro i hi
    have := List.find?_eq_none.mp hf i (List.mem_range.mpr hi)
    simpa using this
  | some i => rw [hf] at h; cases h

theorem evictLoop_keeps (bl : List Nat) :
    ∀ (t : List SlotEntry) (m : Nat) (sel : Option SlotEntry),
      sel.isSome → (evictLoop bl t m sel).isSome := by
  intro t
  induction t with
  | nil => intro m sel h; exact h
  | cons a rest ih =>
    intro m sel h
    rw [evictLoop]
    by_cases hc : a.2.1 < m ∧ a.2.1 ∉ bl
    · rw [if_pos hc]; exact ih _ _ rfl
    · rw [if_neg hc]; exact ih _ _ h

theorem evictLoop_finds (bl : List Nat) :
    ∀ (t : List SlotEntry) (m : Nat) (sel : Option SlotEntry) (e : SlotEntry),
      e ∈ t → e.2.1 ∉ bl → e.2.1 < m → (evictLoop bl t m sel).isSome := by
  intro t
  induction t with
  | nil => intro m sel e h; cases h
  | cons a rest ih =>
    intro m sel e he hbl hm
    rw [evictLoop]
    by_cases hc : a.2.1 < m ∧ a.2.1 ∉ bl
    · rw [if_pos hc]; exact evictLoop_keeps bl rest _ _ rfl
    · rw [if_neg hc]
      rcases List.mem_cons.mp he with rfl | he2
      · exact absurd ⟨hm, hbl⟩ hc
      · exact ih m sel e he2 hbl hm

/-- The selection scan succeeds whenever some entry has a non-backlisted chunk
below the sentinel. -/
theorem evictSelect_isSome {cn : Nat} {bl : List Nat} {t : List SlotEntry}
    {e : SlotEntry} (he : e ∈ t) (hbl : e.2.1 ∉ bl) (hcn : e.2.1 < 2 * cn) :
    (evictSelect cn bl t).isSome :=
  evictLoop_finds bl t (2 * cn) none e he hbl hcn

/-- When every resident chunk is backlisted, the selection scan fails. -/
theorem evictSelect_none_of_backlisted {cn : Nat} {bl : List Nat} {t : List SlotEntry}
    (hall : ∀ e ∈ t, e.2.1 ∈ bl) : evictSelect cn bl t = none := by
  cases h : evictSelect cn bl t with
  | none => rfl
  | some e => exact absurd (hall e (evictSelect_result h).1) (evictSelect_result h).2.1

theorem evictLoop_le (bl : List Nat) (t : List SlotEntry) (m : Nat)
    (sel : Option SlotEntry) (hinv : ∀ x, sel = some x → x.2.1 ≤ m) (e : SlotEntry)
    (h : evictLoop bl t m sel = some e) : e.2.1 ≤ m := by
  rcases evictLoop_result bl t m sel e h with ⟨_, _, h3⟩ | h4
  · exact le_of_lt h3
  · exact hinv e h4

theorem evictLoop_min (bl : List Nat) :
    ∀ (t : List SlotEntry) (m : Nat) (sel : Option SlotEntry),
      (∀ x, sel = some x → x.2.1 ≤ m) →
      ∀ e, evictLoop bl t m sel = some e →
      ∀ f ∈ t, f.2.1 ∉ bl → e.2.1 ≤ f.2.1 := by
  intro t
  induction t with
  | nil => intro m sel _ e _ f hf; cases hf
  | cons a rest ih =>
    intro m sel hinv e h f hf hfbl
    rw [evictLoop] at h
    by_cases hc : a.2.1 < m ∧ a.2.1 ∉ bl
    · rw [if_pos hc] at h
      have hinv2 : ∀ x, (some a : Option SlotEntry) = some x → x.2.1 ≤ a.2.1 := by
        intro x hx
        injection hx with hx
        subst hx
        exact le_refl _
      rcases List.mem_cons.mp hf with rfl | hf2
      · exact evictLoop_le bl rest f.2.1 (some f) hinv2 e h
      · exact ih a.2.1 (some a) hinv2 e h f hf2 hfbl
    · rw [if_neg hc] at h
      rcases List.mem_cons.mp hf with rfl | hf2
      · have hm : m ≤ f.2.1 := by
          by_contra hlt
          exact hc ⟨by omega, hfbl⟩
        exact le_trans (evictLoop_le bl rest m sel hinv e h) hm
      · exact ih m sel hinv e h f hf2 hfbl

/-- The selected victim has the least chunk id among non-backlisted entries. -/
theorem evictSelect_min {cn : Nat} {bl : List Nat} {t : List SlotEntry}
    {e : SlotEntry} (h : evictSelect cn bl t = some e) :
    ∀ f ∈ t, f.2.1 ∉ bl → e.2.1 ≤ f.2.1 :=
  evictLoop_min bl t (2 * cn) none (fun x hx => by cases hx) e h

/-- Erasing by key from an association list with distinct keys removes exactly
the entries carrying that key. -/
theorem mem_eraseP_key {κ β : Type} [BEq κ] [LawfulBEq κ] :
    ∀ {m : List (κ × β)}, (m.map fun p => p.1).Nodup →
      ∀ {v : κ} (f : κ × β), f ∈ m.eraseP (fun p => p.1 == v) ↔ f ∈ m ∧ f.1 ≠ v := by
  intro m
  induction m with
  | nil => intro _ v f; simp
  | cons a t ih =>
    intro hnd v f
    rw [List.map_cons, List.nodup_cons] at hnd
    obtain ⟨ha, ht⟩ := hnd
    by_cases hav : a.1 = v
    · rw [List.eraseP_cons_of_pos (by simpa using hav)]
      constructor
      · intro hf
        refine ⟨List.mem_cons_of_mem _ hf, ?_⟩
        intro hfv
        have hmap : f.1 ∈ t.map fun p => p.1 := List.mem_map_of_mem _ hf
        rw [hfv, ← hav] at hmap
        exact ha hmap
      · rintro ⟨hf, hfv⟩
        rcases List.mem_cons.mp hf with rfl | hf2
        · exact absurd hav hfv
        · exact hf2
    · rw [List.eraseP_cons_of_neg (by simpa using hav)]
      constructor
      · intro hf
        rcases List.mem_cons.mp hf with rfl | hf2
        · exact ⟨List.mem_cons_self _ _, hav⟩
        · have := (ih ht f).mp hf2
          exact ⟨List.mem_cons_of_mem _ this.1, this.2⟩
      · rintro ⟨hf, hfv⟩
        rcases List.mem_cons.mp hf with rfl | hf2
        · exact List.mem_cons_self _ _
        · exact List.mem_cons_of_mem _ ((ih ht f).mpr ⟨hf2, hfv⟩)

/-! ### The consistency invariant of a `ChunkParamMgr` state -/

/-- Wellformedness of the cached chunk table: distinct slots, at most one slot
per chunk id, slots in `[0, cuda_chunk_num)`, the stored device offset is
`slot * chunk_size`, and chunk ids below `chunk_num`. -/
def GoodTable (cfg : MgrCfg) (table : List SlotEntry) : Prop :=
  (table.map fun e => e.1).Nodup ∧
  (table.map fun e => e.2.1).Nodup ∧
  ∀ e ∈ table, 0 ≤ e.1 ∧ e.1 < (cfg.cudaChunkNum : Int) ∧
    e.2.2 = e.1 * cfg.chunkSize ∧ e.2.1 < cfg.chunkNum

/-- Mutual consistency of the redundant structures of `ChunkParamMgr`: the
slot table, the `cpu_chunk_embedding` flags, the `CCT` offsets, the
`chunk_id_cuda_offset` dict and the `cached_chunk_ids` list. -/
def Good {α : Type} (cfg : MgrCfg) (s : ParamState α) : Prop :=
  GoodTable cfg s.cachedChunkTable ∧
  (∀ c, s.chunkFlag c = false ↔ chunkInCuda s.cachedChunkTable c = true) ∧
  (∀ e ∈ s.cachedChunkTable, s.cct e.2.1 = e.2.2) ∧
  (∀ c off, (c, off) ∈ s.chunkIdCudaOffset ↔
    ∃ slot, (slot, c, off) ∈ s.cachedChunkTable) ∧
  (s.chunkIdCudaOffset.map fun p => p.1).Nodup ∧
  (∀ c, c ∈ s.cachedChunkIds ↔ chunkInCuda s.cachedChunkTable c = true) ∧
  s.cachedChunkIds.Nodup

/-- A wellformed table holds at most `cuda_chunk_num` chunks. -/
theorem GoodTable.length_le {cfg : MgrCfg} {table : List SlotEntry}
    (h : GoodTable cfg table) : table.length ≤ cfg.cudaChunkNum := by
  obtain ⟨hnd, -, hbound⟩ := h
  have hsub : (table.map fun e => e.1) ⊆ (List.range cfg.cudaChunkNum).map Int.ofNat := by
    intro x hx
    rcases List.mem_map.mp hx with ⟨e, he, rfl⟩
    rcases hbound e he with ⟨h0, h1, -⟩
    rcases Int.eq_ofNat_of_zero_le h0 with ⟨n, hn⟩
    rw [hn]
    rw [hn] at h1
    exact List.mem_map_of_mem _ (List.mem_range.mpr (by exact_mod_cast h1))
  have := (List.subperm_of_subset hnd hsub).length_le
  simpa using this

/-- A free slot exists whenever the table holds fewer entries than there are
slots. -/
theorem findFreeCudaSlot_ne_of_lt {cfg : MgrCfg} {table : List SlotEntry}
    (hlen : table.length < cfg.cudaChunkNum) :
    findFreeCudaSlot cfg.cudaChunkNum table ≠ -1 := by
  intro hfull
  have hocc := findFreeCudaSlot_none hfull
  have hsub : (List.range cfg.cudaChunkNum).map Int.ofNat ⊆ table.map fun e => e.1 := by
    intro x hx
    rcases List.mem_map.mp hx with ⟨i, hi, rfl⟩
    rcases slotOccupied_iff.mp (hocc i (List.mem_range.mp hi)) with ⟨e, he, hee⟩
    exact hee ▸ List.mem_map_of_mem _ he
  have hnd : ((List.range cfg.cudaChunkNum).map Int.ofNat).Nodup :=
    (List.nodup_range _).map fun a b h => Int.ofNat.inj h
  have := (List.subperm_of_subset hnd hsub).length_le
  simp only [List.length_map, List.length_range] at this
  omega

theorem chunkInCuda_append {t1 t2 : List SlotEntry} {d : Nat} :
    chunkInCuda (t1 ++ t2) d = (chunkInCuda t1 d || chunkInCuda t2 d) := by
  simp [chunkInCuda, List.any_append]

theorem chunkInCuda_single {sl : Int} {c : Nat} {off : Int} {d : Nat} :
    chunkInCuda [(sl, c, off)] d = (c == d) := by
  simp [chunkInCuda]

/-- Unfolding a successful `_evict` into the selected entry and the record it
produces. -/
theorem evictChunk_inv {α : Type} {cfg : MgrCfg} {s : ParamState α} {slot : Int}
    {s1 : ParamState α} (h : evictChunk cfg s = .ok (slot, s1)) :
    ∃ chunk off,
      evictSelect cfg.chunkNum s.evictBacklist s.cachedChunkTable = some (slot, chunk, off) ∧
      s1 = { s with
        cpuWeight := copyToCpu s.cudaWeight (off * cfg.embeddingDim) s.cpuWeight
          (chunk * cfg.chunkSize * cfg.embeddingDim) (cfg.chunkSize * cfg.embeddingDim),
        cachedChunkTable := s.cachedChunkTable.eraseP (fun e => e.1 == slot),
        chunkIdCudaOffset := eraseKey s.chunkIdCudaOffset chunk,
        cachedChunkIds := s.cachedChunkIds.erase chunk,
        chunkFlag := fun c => if c = chunk then true else s.chunkFlag c,
        cudaToCpuNumel := s.cudaToCpuNumel + cfg.chunkSize * cfg.embeddingDim } := by
  unfold evictChunk at h
  cases hsel : evictSelect cfg.chunkNum s.evictBacklist s.cachedChunkTable with
  | none => rw [hsel] at h; cases h
  | some e =>
    obtain ⟨sl, ch, off⟩ := e
    rw [hsel] at h
    injection h with h
    injection h with h1 h2
    subst h1
    exact ⟨ch, off, rfl, h2.symm⟩

/-- Unfolding a successful `_admit` into its two branches. -/
theorem admitChunk_inv {α : Type} {cfg : MgrCfg} {c : Nat} {s s1 : ParamState α}
    (h : admitChunk cfg c s = .ok s1) :
    (findFreeCudaSlot cfg.cudaChunkNum s.cachedChunkTable ≠ -1 ∧
      s1 = admitIntoSlot cfg c (findFreeCudaSlot cfg.cudaChunkNum s.cachedChunkTable) s) ∨
    (findFreeCudaSlot cfg.cudaChunkNum s.cachedChunkTable = -1 ∧
      ∃ slot s2, evictChunk cfg s = .ok (slot, s2) ∧ s1 = admitIntoSlot cfg c slot s2) := by
  unfold admitChunk at h
  by_cases hf : findFreeCudaSlot cfg.cudaChunkNum s.cachedChunkTable = -1
  · rw [if_pos (by simpa using hf)] at h
    cases hev : evictChunk cfg s with
    | error e => rw [hev] at h; cases h
    | ok p =>
      obtain ⟨slot, s2⟩ := p
      rw [hev] at h
      injection h with h
      exact Or.inr ⟨hf, slot, s2, rfl, h.symm⟩
  · rw [if_neg (by simpa using hf)] at h
    injection h with h
    exact Or.inl ⟨hf, h.symm⟩

/-- `_admit` into a fresh free slot preserves the invariant; the new table is
the old one with the new entry appended. -/
theorem good_admitIntoSlot {α : Type} {cfg : MgrCfg} {s : ParamState α} {c : Nat}
    {slot : Int} (hg : Good cfg s) (hres : chunkInCuda s.cachedChunkTable c = false)
    (h0 : 0 ≤ slot) (h1 : slot < (cfg.cudaChunkNum : Int))
    (hfree : slotOccupied s.cachedChunkTable slot = false) (hc : c < cfg.chunkNum) :
    Good cfg (admitIntoSlot cfg c slot s) := by
  obtain ⟨⟨hs1, hs2, hs3⟩, hflag, hcct, hoff, hoffnd, hids, hidsnd⟩ := hg
  have hslot_fresh : ∀ e ∈ s.cachedChunkTable, e.1 ≠ slot := by
    intro e he hee
    rw [← Bool.not_eq_true] at hfree
    exact hfree (slotOccupied_iff.mpr ⟨e, he, hee⟩)
  have hc_fresh : ∀ e ∈ s.cachedChunkTable, e.2.1 ≠ c := by
    intro e he hee
    rw [← Bool.not_eq_true] at hres
    exact hres (chunkInCuda_iff.mpr ⟨e, he, hee⟩)
  have hkey_fresh : ∀ p ∈ s.chunkIdCudaOffset, p.1 ≠ c := by
    intro p hp hpc
    have hp2 : (p.1, p.2) ∈ s.chunkIdCudaOffset := hp
    rcases ((hoff p.1 p.2).mp hp2) with ⟨sl, hsl⟩
    exact hc_fresh _ hsl (by simpa using hpc)
  have hsetKey : setKey s.chunkIdCudaOffset c (slot * cfg.chunkSize) =
      s.chunkIdCudaOffset ++ [(c, slot * cfg.chunkSize)] := by
    rw [setKey, if_neg]
    simp only [List.any_eq_true, beq_iff_eq, not_exists, not_and]
    intro p hp
    exact hkey_fresh p hp
  refine ⟨⟨?_, ?_, ?_⟩, ?_, ?_, ?_, ?_, ?_, ?_⟩
  · show ((s.cachedChunkTable ++ [(slot, c, slot * cfg.chunkSize)]).map fun e => e.1).Nodup
    rw [List.map_append, List.nodup_append]
    refine ⟨hs1, List.nodup_singleton _, ?_⟩
    intro x hx hy
    rcases List.mem_map.mp hx with ⟨e, he, rfl⟩
    simp only [List.map_cons, List.map_nil, List.mem_singleton] at hy
    exact hslot_fresh e he hy
  · show ((s.cachedChunkTable ++ [(slot, c, slot * cfg.chunkSize)]).map fun e => e.2.1).Nodup
    rw [List.map_append, List.nodup_append]
    refine ⟨hs2, List.nodup_singleton _, ?_⟩
    intro x hx hy
    rcases List.mem_map.mp hx with ⟨e, he, rfl⟩
    simp only [List.map_cons, List.map_nil, List.mem_singleton] at hy
    exact hc_fresh e he hy
  · intro e he
    rcases List.mem_append.mp he with he2 | he2
    · exact hs3 e he2
    · rcases List.mem_singleton.mp he2 with rfl
      exact ⟨h0, h1, rfl, hc⟩
  · intro d
    show (if d = c then false else s.chunkFlag d) = false ↔
      chunkInCuda (s.cachedChunkTable ++ [(slot, c, slot * cfg.chunkSize)]) d = true
    rw [chunkInCuda_append, chunkInCuda_single]
    by_cases hd : d = c
    · subst hd; simp
    · rw [if_neg hd]
      rw [hflag d]
      have : (c == d) = false := by simpa using fun h => hd h.symm
      rw [this]
      simp
  · intro e he
    rcases List.mem_append.mp he with he2 | he2
    · show (if e.2.1 = c then slot * cfg.chunkSize else s.cct e.2.1) = e.2.2
      rw [if_neg (hc_fresh e he2)]
      exact hcct e he2
    · rcases List.mem_singleton.mp he2 with rfl
      show (if c = c then slot * cfg.chunkSize else s.cct c) = slot * cfg.chunkSize
      rw [if_pos rfl]
  · intro d o
    show (d, o) ∈ setKey s.chunkIdCudaOffset c (slot * cfg.chunkSize) ↔ _
    rw [hsetKey]
    constructor
    · intro hmem
      rcases List.mem_append.mp hmem with hm | hm
      · rcases (hoff d o).mp hm with ⟨sl, hsl⟩
        exact ⟨sl, List.mem_append_left _ hsl⟩
      · rcases List.mem_singleton.mp hm with hm2
        injection hm2 with hd ho
        subst hd; subst ho
        exact ⟨slot, List.mem_append_right _ (List.mem_singleton.mpr rfl)⟩
    · rintro ⟨sl, hsl⟩
      rcases List.mem_append.mp hsl with hm | hm
      · exact List.mem_append_left _ ((hoff d o).mpr ⟨sl, hm⟩)
      · rcases List.mem_singleton.mp hm with hm2
        injection hm2 with h1 h2
        injection h2 with h2 h3
        subst h2; subst h3
        exact List.mem_append_right _ (List.mem_singleton.mpr rfl)
  · show ((setKey s.chunkIdCudaOffset c (slot * cfg.chunkSize)).map fun p => p.1).Nodup
    rw [hsetKey, List.map_append, List.nodup_append]
    refine ⟨hoffnd, List.nodup_singleton _, ?_⟩
    intro x hx hy
    rcases List.mem_map.mp hx with ⟨p, hp, rfl⟩
    simp only [List.map_cons, List.map_nil, List.mem_singleton] at hy
    exact hkey_fresh p hp hy
  · intro d
    show d ∈ s.cachedChunkIds ++ [c] ↔
      chunkInCuda (s.cachedChunkTable ++ [(slot, c, slot * cfg.chunkSize)]) d = true
    rw [chunkInCuda_append, chunkInCuda_single, List.mem_append, List.mem_singleton]
    by_cases hd : d = c
    · subst hd; simp
    · have : (c == d) = false := by simpa using fun h => hd h.symm
      rw [this, hids d]
      simp [hd]
  · show (s.cachedChunkIds ++ [c]).Nodup
    rw [List.nodup_append]
    refine ⟨hidsnd, List.nodup_singleton _, ?_⟩
    intro x hx hy
    rcases List.mem_singleton.mp hy with rfl
    rw [← Bool.not_eq_true] at hres
    exact hres ((hids x).mp hx)

/-- A successful `_evict` preserves the invariant; the victim is an entry of
the old table outside the backlist, and exactly this chunk stops being
resident. -/
theorem good_evictChunk {α : Type} {cfg : MgrCfg} {s : ParamState α} {slot : Int}
    {s1 : ParamState α} (hg : Good cfg s) (h : evictChunk cfg s = .ok (slot, s1)) :
    Good cfg s1 ∧
    ∃ chunk off, (slot, chunk, off) ∈ s.cachedChunkTable ∧
      chunk ∉ s.evictBacklist ∧
      ∀ d, chunkInCuda s1.cachedChunkTable d = true ↔
        chunkInCuda s.cachedChunkTable d = true ∧ d ≠ chunk := by
  obtain ⟨⟨hs1, hs2, hs3⟩, hflag, hcct, hoff, hoffnd, hids, hidsnd⟩ := hg
  obtain ⟨chunk, off, hsel, rfl⟩ := evictChunk_inv h
  obtain ⟨hvmem, hvbl, -⟩ := evictSelect_result hsel
  have hmem_t1 : ∀ f : SlotEntry,
      f ∈ s.cachedChunkTable.eraseP (fun e => e.1 == slot) ↔
        f ∈ s.cachedChunkTable ∧ f.1 ≠ slot := mem_eraseP_key hs1
  have hslot_uniq : ∀ f ∈ s.cachedChunkTable, f.1 = slot → f = (slot, chunk, off) :=
    fun f hf hfs => List.inj_on_of_nodup_map hs1 hf hvmem hfs
  have hchunk_uniq : ∀ f ∈ s.cachedChunkTable, f.2.1 = chunk → f = (slot, chunk, off) :=
    fun f hf hfs => List.inj_on_of_nodup_map hs2 hf hvmem hfs
  have hsub : List.Sublist (s.cachedChunkTable.eraseP (fun e => e.1 == slot))
      s.cachedChunkTable := List.eraseP_sublist _
  have hres_iff : ∀ d,
      chunkInCuda (s.cachedChunkTable.eraseP (fun e => e.1 == slot)) d = true ↔
        chunkInCuda s.cachedChunkTable d = true ∧ d ≠ chunk := by
    intro d
    rw [chunkInCuda_iff, chunkInCuda_iff]
    constructor
    · rintro ⟨f, hf, rfl⟩
      obtain ⟨hf1, hf2⟩ := (hmem_t1 f).mp hf
      refine ⟨⟨f, hf1, rfl⟩, ?_⟩
      intro hd
      exact hf2 (congrArg (fun e => e.1) (hchunk_uniq f hf1 hd))
    · rintro ⟨⟨f, hf, rfl⟩, hd⟩
      refine ⟨f, (hmem_t1 f).mpr ⟨hf, ?_⟩, rfl⟩
      intro hfs
      exact hd (congrArg (fun e => e.2.1) (hslot_uniq f hf hfs))
  refine ⟨⟨⟨?_, ?_, ?_⟩, ?_, ?_, ?_, ?_, ?_, ?_⟩, chunk, off, hvmem, hvbl, hres_iff⟩
  · exact hs1.sublist (hsub.map _)
  · exact hs2.sublist (hsub.map _)
  · exact fun e he => hs3 e (hsub.subset he)
  · intro d
    show (if d = chunk then true else s.chunkFlag d) = false ↔ _
    by_cases hd : d = chunk
    · subst hd
      rw [if_pos rfl]
      simp only [Bool.true_eq_false, false_iff]
      intro hcontra
      exact ((hres_iff d).mp hcontra).2 rfl
    · rw [if_neg hd, hflag d, hres_iff d]
      exact ⟨fun h2 => ⟨h2, hd⟩, fun h2 => h2.1⟩
  · exact fun e he => hcct e (hsub.subset he)
  · intro d o
    show (d, o) ∈ eraseKey s.chunkIdCudaOffset chunk ↔ _
    rw [eraseKey, mem_eraseP_key hoffnd]
    constructor
    · rintro ⟨hm, hd⟩
      rcases (hoff d o).mp hm with ⟨sl, hsl⟩
      refine ⟨sl, (hmem_t1 _).mpr ⟨hsl, ?_⟩⟩
      intro hss
      exact hd (congrArg (fun e => e.2.1) (hslot_uniq _ hsl hss))
    · rintro ⟨sl, hsl⟩
      obtain ⟨hm, hne⟩ := (hmem_t1 _).mp hsl
      refine ⟨(hoff d o).mpr ⟨sl, hm⟩, ?_⟩
      intro hd
      exact hne (congrArg (fun e => e.1) (hchunk_uniq _ hm (by simpa using hd)))
  · exact hoffnd.sublist ((List.eraseP_sublist _).map _)
  · intro d
    show d ∈ s.cachedChunkIds.erase chunk ↔ _
    rw [hidsnd.mem_erase_iff, hids d, hres_iff d]
    tauto
  · exact hidsnd.erase _

/-- The freed slot of a successful `_evict` is in range and unoccupied
afterwards. -/
theorem evictChunk_slot_free {α : Type} {cfg : MgrCfg} {s : ParamState α}
    {slot : Int} {s1 : ParamState α} (hg : Good cfg s)
    (h : evictChunk cfg s = .ok (slot, s1)) :
    0 ≤ slot ∧ slot < (cfg.cudaChunkNum : Int) ∧
      slotOccupied s1.cachedChunkTable slot = false := by
  obtain ⟨⟨hs1, hs2, hs3⟩, -, -, -, -, -, -⟩ := hg
  obtain ⟨chunk, off, hsel, rfl⟩ := evictChunk_inv h
  obtain ⟨hvmem, -, -⟩ := evictSelect_result hsel
  obtain ⟨h0, h1, -, -⟩ := hs3 _ hvmem
  refine ⟨h0, h1, ?_⟩
  rw [← Bool.not_eq_true]
  intro hocc
  rcases slotOccupied_iff.mp hocc with ⟨f, hf, hfs⟩
  exact ((mem_eraseP_key hs1 f).mp hf).2 hfs

theorem evictChunk_error {α : Type} {cfg : MgrCfg} {s : ParamState α} {e : CacheErr}
    (h : evictChunk cfg s = .error e) : e = .evictionImpossible := by
  unfold evictChunk at h
  cases hsel : evictSelect cfg.chunkNum s.evictBacklist s.cachedChunkTable with
  | none => rw [hsel] at h; injection h with h; exact h.symm
  | some v => obtain ⟨sl, ch, off⟩ := v; rw [hsel] at h; cases h

theorem admitChunk_error {α : Type} {cfg : MgrCfg} {c : Nat} {s : ParamState α}
    {e : CacheErr} (h : admitChunk cfg c s = .error e) : e = .evictionImpossible := by
  unfold admitChunk at h
  by_cases hf : findFreeCudaSlot cfg.cudaChunkNum s.cachedChunkTable = -1
  · rw [if_pos (by simpa using hf)] at h
    cases hev : evictChunk cfg s with
    | error e2 =>
      rw [hev] at h
      injection h with h
      exact h ▸ evictChunk_error hev
    | ok p => obtain ⟨slot, s2⟩ := p; rw [hev] at h; cases h
  · rw [if_neg (by simpa using hf)] at h; cases h

/-- A successful `_admit` of a non-resident chunk preserves the invariant; the
chunk becomes resident, no other chunk becomes resident, backlisted resident
chunks stay resident, and the backlist and the three history lists are
untouched. -/
theorem good_admitChunk {α : Type} {cfg : MgrCfg} {c : Nat} {s s1 : ParamState α}
    (hg : Good cfg s) (hres : chunkInCuda s.cachedChunkTable c = false)
    (hc : c < cfg.chunkNum) (h : admitChunk cfg c s = .ok s1) :
    Good cfg s1 ∧
    chunkInCuda s1.cachedChunkTable c = true ∧
    (∀ d, d ≠ c → chunkInCuda s1.cachedChunkTable d = true →
      chunkInCuda s.cachedChunkTable d = true) ∧
    (∀ d, chunkInCuda s.cachedChunkTable d = true → d ∈ s.evictBacklist →
      chunkInCuda s1.cachedChunkTable d = true) ∧
    s1.evictBacklist = s.evictBacklist ∧
    s1.numHitsHistory = s.numHitsHistory ∧
    s1.numMissHistory = s.numMissHistory ∧
    s1.numWriteBackHistory = s.numWriteBackHistory := by
  rcases admitChunk_inv h with ⟨hff, rfl⟩ | ⟨-, slot, s2, hev, rfl⟩
  · obtain ⟨h0, h1, hfree⟩ := findFreeCudaSlot_spec hff
    refine ⟨good_admitIntoSlot hg hres h0 h1 hfree hc, ?_, ?_, ?_, rfl, rfl, rfl, rfl⟩
    · show chunkInCuda (s.cachedChunkTable ++ [_]) c = true
      rw [chunkInCuda_append, chunkInCuda_single]
      simp
    · intro d hd
      show chunkInCuda (s.cachedChunkTable ++ [_]) d = true → _
      rw [chunkInCuda_append, chunkInCuda_single]
      intro h2
      rcases Bool.or_eq_true_iff.mp h2 with h3 | h3
      · exact h3
      · exact absurd (beq_iff_eq.mp h3).symm hd
    · intro d hd _
      show chunkInCuda (s.cachedChunkTable ++ [_]) d = true
      rw [chunkInCuda_append, hd]
      rfl
  · obtain ⟨hg2, chunk, off, hvmem, hvbl, hriff⟩ := good_evictChunk hg hev
    obtain ⟨h0, h1, hfree⟩ := evictChunk_slot_free hg hev
    have hres2 : chunkInCuda s2.cachedChunkTable c = false := by
      rw [← Bool.not_eq_true]
      intro h2
      rw [← Bool.not_eq_true] at hres
      exact hres ((hriff c).mp h2).1
    have hbl2 : s2.evictBacklist = s.evictBacklist := by
      obtain ⟨ch2, off2, hsel2, rfl⟩ := evictChunk_inv hev
      rfl
    have hhist : s2.numHitsHistory = s.numHitsHistory ∧
        s2.numMissHistory = s.numMissHistory ∧
        s2.numWriteBackHistory = s.numWriteBackHistory := by
      obtain ⟨ch2, off2, hsel2, rfl⟩ := evictChunk_inv hev
      exact ⟨rfl, rfl, rfl⟩
    refine ⟨good_admitIntoSlot hg2 hres2 h0 h1 hfree hc, ?_, ?_, ?_, hbl2, hhist.1,
      hhist.2.1, hhist.2.2⟩
    · show chunkInCuda (s2.cachedChunkTable ++ [_]) c = true
      rw [chunkInCuda_append, chunkInCuda_single]
      simp
    · intro d hd
      show chunkInCuda (s2.cachedChunkTable ++ [_]) d = true → _
      rw [chunkInCuda_append, chunkInCuda_single]
      intro h2
      rcases Bool.or_eq_true_iff.mp h2 with h3 | h3
      · exact ((hriff d).mp h3).1
      · exact absurd (beq_iff_eq.mp h3).symm hd
    · intro d hd hdbl
      show chunkInCuda (s2.cachedChunkTable ++ [_]) d = true
      have : chunkInCuda s2.cachedChunkTable d = true := by
        refine (hriff d).mpr ⟨hd, ?_⟩
        intro hdc
        exact hvbl (hdc ▸ hdbl)
      rw [chunkInCuda_append, this]
      rfl

/-- The master lemma for `_prepare_chunks_on_cuda`: the invariant is
maintained, the backlist and the history lists are untouched, backlisted
resident chunks are never evicted, every exception is EvictionImpossible, and
on success every listed chunk ends up resident. -/
theorem good_prepareChunks {α : Type} {cfg : MgrCfg} :
    ∀ (L : List Nat) (s : ParamState α), Good cfg s →
      (∀ c ∈ L, c ∈ s.evictBacklist) → (∀ c ∈ L, c < cfg.chunkNum) →
      Good cfg (prepareChunksOnCuda cfg L s).2 ∧
      (prepareChunksOnCuda cfg L s).2.evictBacklist = s.evictBacklist ∧
      (prepareChunksOnCuda cfg L s).2.numHitsHistory = s.numHitsHistory ∧
      (prepareChunksOnCuda cfg L s).2.numMissHistory = s.numMissHistory ∧
      (prepareChunksOnCuda cfg L s).2.numWriteBackHistory = s.numWriteBackHistory ∧
      (∀ d, chunkInCuda s.cachedChunkTable d = true → d ∈ s.evictBacklist →
        chunkInCuda (prepareChunksOnCuda cfg L s).2.cachedChunkTable d = true) ∧
      (∀ e, (prepareChunksOnCuda cfg L s).1 = some e → e = .evictionImpossible) ∧
      ((prepareChunksOnCuda cfg L s).1 = none →
        ∀ c ∈ L, chunkInCuda (prepareChunksOnCuda cfg L s).2.cachedChunkTable c = true) := by
  intro L
  induction L with
  | nil =>
    intro s hg _ _
    refine ⟨hg, rfl, rfl, rfl, rfl, fun d hd _ => hd, ?_, ?_⟩
    · intro e he
      exact Option.noConfusion he
    · intro _ d hd
      exact absurd hd (List.not_mem_nil d)
  | cons c rest ih =>
    intro s hg hbl hbound
    by_cases hresc : chunkInCuda s.cachedChunkTable c = true
    · have hstep : prepareChunksOnCuda cfg (c :: rest) s = prepareChunksOnCuda cfg rest s := by
        rw [prepareChunksOnCuda, if_pos hresc]
      rw [hstep]
      obtain ⟨g1, g2, g3, g4, g5, g6, g7, g8⟩ :=
        ih s hg (fun d hd => hbl d (List.mem_cons_of_mem _ hd))
          (fun d hd => hbound d (List.mem_cons_of_mem _ hd))
      refine ⟨g1, g2, g3, g4, g5, g6, g7, ?_⟩
      intro hnone d hd
      rcases List.mem_cons.mp hd with rfl | hd2
      · exact g6 d hresc (hbl d (List.mem_cons_self _ _))
      · exact g8 hnone d hd2
    · have hresc2 : chunkInCuda s.cachedChunkTable c = false := Bool.eq_false_iff.mpr hresc
      cases hpre : (if findFreeCudaSlot cfg.cudaChunkNum s.cachedChunkTable == -1 then
          (evictChunk cfg s).map (fun p => p.2) else .ok s) with
      | error e =>
        have hstep : prepareChunksOnCuda cfg (c :: rest) s = (some e, s) := by
          rw [prepareChunksOnCuda, if_neg (by simpa using hresc), hpre]
        rw [hstep]
        have herr : e = .evictionImpossible := by
          by_cases hff : findFreeCudaSlot cfg.cudaChunkNum s.cachedChunkTable = -1
          · rw [if_pos (by simpa using hff)] at hpre
            cases hev : evictChunk cfg s with
            | error e2 =>
              rw [hev] at hpre
              injection hpre with hpre
              exact hpre ▸ evictChunk_error hev
            | ok p => rw [hev] at hpre; cases hpre
          · rw [if_neg (by simpa using hff)] at hpre; cases hpre
        exact ⟨hg, rfl, rfl, rfl, rfl, fun d hd _ => hd,
          fun e2 he2 => by injection he2 with he2; exact he2 ▸ herr,
          fun hnone => by cases hnone⟩
      | ok s1 =>
        -- the pre-eviction step: either the table was full and one chunk was
        -- evicted, or the state is unchanged
        have hs1 : Good cfg s1 ∧ chunkInCuda s1.cachedChunkTable c = false ∧
            s1.evictBacklist = s.evictBacklist ∧
            s1.numHitsHistory = s.numHitsHistory ∧
            s1.numMissHistory = s.numMissHistory ∧
            s1.numWriteBackHistory = s.numWriteBackHistory ∧
            (∀ d, chunkInCuda s.cachedChunkTable d = true → d ∈ s.evictBacklist →
              chunkInCuda s1.cachedChunkTable d = true) := by
          by_cases hff : findFreeCudaSlot cfg.cudaChunkNum s.cachedChunkTable = -1
          · rw [if_pos (by simpa using hff)] at hpre
            cases hev : evictChunk cfg s with
            | error e2 => rw [hev] at hpre; cases hpre
            | ok p =>
              obtain ⟨slot, s2⟩ := p
              rw [hev] at hpre
              injection hpre with hpre
              subst hpre
              obtain ⟨hg2, chunk, off, hvmem, hvbl, hriff⟩ := good_evictChunk hg hev
              obtain ⟨ch2, off2, hsel2, rfl⟩ := evictChunk_inv hev
              refine ⟨hg2, ?_, rfl, rfl, rfl, rfl, ?_⟩
              · rw [← Bool.not_eq_true]
                intro h2
                exact hresc ((hriff c).mp h2).1
              · intro d hd hdbl
                refine (hriff d).mpr ⟨hd, ?_⟩
                intro hdc
                exact hvbl (hdc ▸ hdbl)
          · rw [if_neg (by simpa using hff)] at hpre
            injection hpre with hpre
            subst hpre
            exact ⟨hg, hresc2, rfl, rfl, rfl, rfl, fun d hd _ => hd⟩
        obtain ⟨hg1, hres1, hbl1, hh1, hh2, hh3, hpres1⟩ := hs1
        cases hadm : admitChunk cfg c s1 with
        | error e =>
          have hstep : prepareChunksOnCuda cfg (c :: rest) s = (some e, s1) := by
            rw [prepareChunksOnCuda, if_neg (by simpa using hresc), hpre]
            show (match admitChunk cfg c s1 with
              | .error e2 => (some e2, s1)
              | .ok s2 => prepareChunksOnCuda cfg rest s2) = (some e, s1)
            rw [hadm]
          rw [hstep]
          refine ⟨hg1, hbl1, hh1, hh2, hh3, hpres1,
            fun e2 he2 => by injection he2 with he2; exact he2 ▸ admitChunk_error hadm,
            fun hnone => by cases hnone⟩
        | ok s2 =>
          have hstep : prepareChunksOnCuda cfg (c :: rest) s =
              prepareChunksOnCuda cfg rest s2 := by
            rw [prepareChunksOnCuda, if_neg (by simpa using hresc), hpre]
            show (match admitChunk cfg c s1 with
              | .error e2 => (some e2, s1)
              | .ok s3 => prepareChunksOnCuda cfg rest s3) = prepareChunksOnCuda cfg rest s2
            rw [hadm]
          rw [hstep]
          obtain ⟨hg2, hresc3, hmono, hpres2, hbl2, hh4, hh5, hh6⟩ :=
            good_admitChunk hg1 hres1 (hbound c (List.mem_cons_self _ _)) hadm
          obtain ⟨g1, g2, g3, g4, g5, g6, g7, g8⟩ :=
            ih s2 hg2
              (fun d hd => by
                rw [hbl2, hbl1]
                exact hbl d (List.mem_cons_of_mem _ hd))
              (fun d hd => hbound d (List.mem_cons_of_mem _ hd))
          refine ⟨g1, by rw [g2, hbl2, hbl1], by rw [g3, hh4, hh1],
            by rw [g4, hh5, hh2], by rw [g5, hh6, hh3], ?_, g7, ?_⟩
          · intro d hd hdbl
            have hd1 : chunkInCuda s1.cachedChunkTable d = true := hpres1 d hd hdbl
            have hdbl1 : d ∈ s1.evictBacklist := by rw [hbl1]; exact hdbl
            have hd2 : chunkInCuda s2.cachedChunkTable d = true := hpres2 d hd1 hdbl1
            have hdbl2 : d ∈ s2.evictBacklist := by rw [hbl2]; exact hdbl1
            exact g6 d hd2 hdbl2
          · intro hnone d hd
            rcases List.mem_cons.mp hd with rfl | hd2
            · have hdbl2 : d ∈ s2.evictBacklist := by
                rw [hbl2, hbl1]
                exact hbl d (List.mem_cons_self _ _)
              exact g6 d hresc3 hdbl2
            · exact g8 hnone d hd2

/-- The miss list a call of `prepare_ids` computes: the working-set chunks
whose `cpu_chunk_embedding` flag is 1. -/
def missesOf {α : Type} (cfg : MgrCfg) (ids : List Nat) (s : ParamState α) : List Nat :=
  (workingSet cfg ids).filter fun c => s.chunkFlag c

/-- The device offset of the slot holding a chunk, read off the slot table. -/
def slotOffsetOf (table : List SlotEntry) (c : Nat) : Option Int :=
  (table.find? fun e => e.2.1 == c).map fun e => e.2.2

/-- Unfolding a successful `prepare_ids` call: the capacity assert passed, the
admission loop succeeded from the state with the backlist set and the history
entries appended, the returned state clears the backlist, and the addresses
are the `CCT` translation of every input id. -/
theorem prepareIds_ok_inv {α : Type} {cfg : MgrCfg} {ids : List Nat}
    {s : ParamState α} {addrs : List Int} {s' : ParamState α}
    (h : prepareIds cfg ids s = (.ok addrs, s')) :
    (workingSet cfg ids).length ≤ cfg.cudaChunkNum ∧
    ∃ sMid,
      prepareChunksOnCuda cfg (missesOf cfg ids s)
        { s with
          evictBacklist := workingSet cfg ids,
          numHitsHistory := s.numHitsHistory ++
            [(workingSet cfg ids).length - (missesOf cfg ids s).length],
          numMissHistory := s.numMissHistory ++ [(missesOf cfg ids s).length],
          numWriteBackHistory := s.numWriteBackHistory ++ [0] } = (none, sMid) ∧
      s' = { sMid with evictBacklist := [] } ∧
      addrs = ids.map fun i => addressOf cfg s' i := by
  unfold prepareIds at h
  by_cases hcap : cfg.cudaChunkNum < (workingSet cfg ids).length
  · rw [if_pos hcap] at h
    injection h with h1 h2
    cases h1
  · rw [if_neg hcap] at h
    simp only [] at h
    cases hrun : prepareChunksOnCuda cfg (missesOf cfg ids s)
        { s with
          evictBacklist := workingSet cfg ids,
          numHitsHistory := s.numHitsHistory ++
            [(workingSet cfg ids).length - (missesOf cfg ids s).length],
          numMissHistory := s.numMissHistory ++ [(missesOf cfg ids s).length],
          numWriteBackHistory := s.numWriteBackHistory ++ [0] } with
    | mk res sMid =>
      rw [show (missesOf cfg ids s) = (workingSet cfg ids).filter
            (fun c => s.chunkFlag c) from rfl] at hrun
      rw [hrun] at h
      cases res with
      | some e => injection h with h1 h2; cases h1
      | none =>
        injection h with h1 h2
        injection h1 with h1
        refine ⟨by omega, sMid, ?_, h2.symm, ?_⟩
        · rw [← hrun]
        · rw [← h1, ← h2]

/-- Any exception escaping `_prepare_chunks_on_cuda` is EvictionImpossible. -/
theorem prepareChunks_error_kind {α : Type} {cfg : MgrCfg} :
    ∀ (L : List Nat) (s : ParamState α) (e : CacheErr),
      (prepareChunksOnCuda cfg L s).1 = some e → e = .evictionImpossible := by
  intro L
  induction L with
  | nil => intro s e he; exact Option.noConfusion he
  | cons c rest ih =>
    intro s e he
    rw [prepareChunksOnCuda] at he
    by_cases hres : chunkInCuda s.cachedChunkTable c = true
    · rw [if_pos hres] at he
      exact ih s e he
    · rw [if_neg hres] at he
      cases hpre : (if findFreeCudaSlot cfg.cudaChunkNum s.cachedChunkTable == -1 then
          (evictChunk cfg s).map (fun p => p.2) else .ok s) with
      | error e2 =>
        rw [hpre] at he
        injection he with he
        subst he
        by_cases hff : findFreeCudaSlot cfg.cudaChunkNum s.cachedChunkTable = -1
        · rw [if_pos (by simpa using hff)] at hpre
          cases hev : evictChunk cfg s with
          | error e3 =>
            rw [hev] at hpre
            injection hpre with hpre
            exact hpre ▸ evictChunk_error hev
          | ok p => rw [hev] at hpre; cases hpre
        · rw [if_neg (by simpa using hff)] at hpre; cases hpre
      | ok s1 =>
        rw [hpre] at he
        replace he : (match admitChunk cfg c s1 with
          | Except.error e2 => (some e2, s1)
          | Except.ok s2 => prepareChunksOnCuda cfg rest s2).1 = some e := he
        cases hadm : admitChunk cfg c s1 with
        | error e2 =>
          rw [hadm] at he
          injection he with he
          exact he ▸ admitChunk_error hadm
        | ok s2 =>
          rw [hadm] at he
          exact ih s2 e he

/-- The capacity assert: a working set larger than the slot count makes
`prepare_ids` raise CapacityExceeded with the object state untouched. -/
theorem prepareIds_capacity {α : Type} {cfg : MgrCfg} {ids : List Nat}
    {s : ParamState α} (hcap : cfg.cudaChunkNum < (workingSet cfg ids).length) :
    prepareIds cfg ids s = (.error .capacityExceeded, s) := by
  unfold prepareIds
  rw [if_pos hcap]

/-- Once the capacity assert passes, CapacityExceeded can no longer be
raised: every later exception is EvictionImpossible. -/
theorem prepareIds_error_kind {α : Type} {cfg : MgrCfg} {ids : List Nat}
    {s : ParamState α} {e : CacheErr}
    (hcap : ¬ cfg.cudaChunkNum < (workingSet cfg ids).length)
    (h : (prepareIds cfg ids s).1 = .error e) : e = .evictionImpossible := by
  unfold prepareIds at h
  rw [if_neg hcap] at h
  simp only [] at h
  cases hrun : prepareChunksOnCuda cfg
      ((workingSet cfg ids).filter fun c => s.chunkFlag c)
      { s with
        evictBacklist := workingSet cfg ids,
        numHitsHistory := s.numHitsHistory ++
          [(workingSet cfg ids).length -
            ((workingSet cfg ids).filter fun c => s.chunkFlag c).length],
        numMissHistory := s.numMissHistory ++
          [((workingSet cfg ids).filter fun c => s.chunkFlag c).length],
        numWriteBackHistory := s.numWriteBackHistory ++ [0] } with
  | mk res sMid =>
    rw [hrun] at h
    cases res with
    | some e2 =>
      injection h with h
      subst h
      exact prepareChunks_error_kind _ _ _ (congrArg Prod.fst hrun)
    | none => exact Except.noConfusion h

/-- The state reached by a successful `prepare_ids` call: consistent again,
every working-set chunk resident, backlist cleared, one new entry in each
history, and the addresses read off the `CCT`. -/
theorem prepareIds_ok_good {α : Type} {cfg : MgrCfg} {ids : List Nat}
    {s : ParamState α} {addrs : List Int} {s' : ParamState α} (hg : Good cfg s)
    (hbound : ∀ i ∈ ids, (cfg.imt i).1 < cfg.chunkNum)
    (h : prepareIds cfg ids s = (.ok addrs, s')) :
    Good cfg s' ∧
    (∀ c ∈ workingSet cfg ids, chunkInCuda s'.cachedChunkTable c = true) ∧
    s'.evictBacklist = [] ∧
    addrs = (ids.map fun i => addressOf cfg s' i) ∧
    s'.numWriteBackHistory = s.numWriteBackHistory ++ [0] ∧
    s'.numHitsHistory = s.numHitsHistory ++
      [(workingSet cfg ids).length - (missesOf cfg ids s).length] ∧
    s'.numMissHistory = s.numMissHistory ++ [(missesOf cfg ids s).length] := by
  obtain ⟨hcap, sMid, hrun, hs', haddrs⟩ := prepareIds_ok_inv h
  have hWbound : ∀ c ∈ workingSet cfg ids, c < cfg.chunkNum := by
    intro c hc
    rcases workingSet_mem.mp hc with ⟨i, hi, rfl⟩
    exact hbound i hi
  have hmiss_sub : ∀ c ∈ missesOf cfg ids s, c ∈ workingSet cfg ids :=
    fun c hc => List.mem_of_mem_filter hc
  obtain ⟨g1, g2, g3, g4, g5, g6, g7, g8⟩ :=
    good_prepareChunks (missesOf cfg ids s)
      { s with
        evictBacklist := workingSet cfg ids,
        numHitsHistory := s.numHitsHistory ++
          [(workingSet cfg ids).length - (missesOf cfg ids s).length],
        numMissHistory := s.numMissHistory ++ [(missesOf cfg ids s).length],
        numWriteBackHistory := s.numWriteBackHistory ++ [0] }
      hg (fun c hc => hmiss_sub c hc) (fun c hc => hWbound c (hmiss_sub c hc))
  rw [hrun] at g1 g2 g3 g4 g5 g6 g7 g8
  have hresW : ∀ c ∈ workingSet cfg ids, chunkInCuda sMid.cachedChunkTable c = true := by
    intro c hc
    by_cases hflag : s.chunkFlag c = true
    · exact g8 rfl c (List.mem_filter.mpr ⟨hc, by simpa using hflag⟩)
    · have hresc : chunkInCuda s.cachedChunkTable c = true := by
        obtain ⟨-, hflagiff, -⟩ := hg
        exact (hflagiff c).mp (Bool.eq_false_iff.mpr hflag)
      exact g6 c hresc hc
  subst hs'
  exact ⟨g1, hresW, rfl, haddrs, g5, g3, g4⟩

/-- A batch whose chunks are all flagged resident is all hits: no admission
happens, the addresses come straight from the `CCT`, and the histories
record `|W|` hits and `0` misses. -/
theorem prepareIds_all_hits {α : Type} {cfg : MgrCfg} {ids : List Nat}
    {s : ParamState α} (hcap : ¬ cfg.cudaChunkNum < (workingSet cfg ids).length)
    (hflags : ∀ c ∈ workingSet cfg ids, s.chunkFlag c = false) :
    prepareIds cfg ids s =
      (.ok (ids.map fun i => addressOf cfg s i),
       { s with
         evictBacklist := [],
         numHitsHistory := s.numHitsHistory ++ [(workingSet cfg ids).length],
         numMissHistory := s.numMissHistory ++ [0],
         numWriteBackHistory := s.numWriteBackHistory ++ [0] }) := by
  unfold prepareIds
  rw [if_neg hcap]
  simp only []
  have hfil : ((workingSet cfg ids).filter fun c => s.chunkFlag c) = [] := by
    rw [List.filter_eq_nil_iff]
    intro c hc
    simp [hflags c hc]
  rw [hfil]
  rfl

/-- No chunk of a batch working set that is resident when `prepare_ids` is
entered is evicted by that call, whether the call succeeds or raises. -/
theorem prepareIds_preserves_workingSet {α : Type} {cfg : MgrCfg} {ids : List Nat}
    {s : ParamState α} (hg : Good cfg s)
    (hbound : ∀ i ∈ ids, (cfg.imt i).1 < cfg.chunkNum) {c : Nat}
    (hc : c ∈ workingSet cfg ids)
    (hres : chunkInCuda s.cachedChunkTable c = true) :
    chunkInCuda (prepareIds cfg ids s).2.cachedChunkTable c = true := by
  have hWbound : ∀ d ∈ workingSet cfg ids, d < cfg.chunkNum := by
    intro d hd
    rcases workingSet_mem.mp hd with ⟨i, hi, rfl⟩
    exact hbound i hi
  unfold prepareIds
  by_cases hcap : cfg.cudaChunkNum < (workingSet cfg ids).length
  · rw [if_pos hcap]
    exact hres
  · rw [if_neg hcap]
    simp only []
    obtain ⟨g1, g2, g3, g4, g5, g6, g7, g8⟩ :=
      good_prepareChunks ((workingSet cfg ids).filter fun d => s.chunkFlag d)
        { s with
          evictBacklist := workingSet cfg ids,
          numHitsHistory := s.numHitsHistory ++
            [(workingSet cfg ids).length -
              ((workingSet cfg ids).filter fun d => s.chunkFlag d).length],
          numMissHistory := s.numMissHistory ++
            [((workingSet cfg ids).filter fun d => s.chunkFlag d).length],
          numWriteBackHistory := s.numWriteBackHistory ++ [0] }
        hg (fun d hd => List.mem_of_mem_filter hd)
        (fun d hd => hWbound d (List.mem_of_mem_filter hd))
    cases hrun : prepareChunksOnCuda cfg
        ((workingSet cfg ids).filter fun d => s.chunkFlag d)
        { s with
          evictBacklist := workingSet cfg ids,
          numHitsHistory := s.numHitsHistory ++
            [(workingSet cfg ids).length -
              ((workingSet cfg ids).filter fun d => s.chunkFlag d).length],
          numMissHistory := s.numMissHistory ++
            [((workingSet cfg ids).filter fun d => s.chunkFlag d).length],
          numWriteBackHistory := s.numWriteBackHistory ++ [0] } with
    | mk res sMid =>
      rw [hrun] at g6
      cases res with
      | some e => exact g6 c hres hc
      | none => exact g6 c hres hc

/-- The freshly initialized manager state is consistent. -/
theorem good_mk0 {α : Type} (cfg : MgrCfg) (w : Nat → α) (z : α) (cct0 : Nat → Int) :
    Good cfg (ParamState.mk0 w z cct0) := by
  refine ⟨⟨by simp [ParamState.mk0], by simp [ParamState.mk0], ?_⟩, ?_, ?_, ?_,
    by simp [ParamState.mk0], ?_, by simp [ParamState.mk0]⟩
  · intro e he
    simp [ParamState.mk0] at he
  · intro c
    simp [ParamState.mk0, chunkInCuda]
  · intro e he
    simp [ParamState.mk0] at he
  · intro c off
    simp [ParamState.mk0]
  · intro c
    simp [ParamState.mk0, chunkInCuda]

/-! ### Concrete instances used to exercise the model -/

/-- chunk_size 2, 2 cuda slots, 8 rows in 4 chunks, embedding_dim 1, identity
index mapping (`reorder` without a frequency list). -/
def cfgA : MgrCfg :=
  { chunkSize := 2, cudaChunkNum := 2, chunkNum := 4, embeddingDim := 1,
    imt := reorderIMT none 8 2 }

/-- chunk_size 1, a single cuda slot, 2 rows in 2 chunks. -/
def cfgB : MgrCfg :=
  { chunkSize := 1, cudaChunkNum := 1, chunkNum := 2, embeddingDim := 1,
    imt := reorderIMT none 2 1 }

/-- chunk_size 1, 2 cuda slots, 4 rows in 4 chunks. -/
def cfgC : MgrCfg :=
  { chunkSize := 1, cudaChunkNum := 2, chunkNum := 4, embeddingDim := 1,
    imt := reorderIMT none 4 1 }

/-- a fresh `ChunkParamMgr` state over integer weights, row i holding 100+i. -/
def sInit : ParamState Int := ParamState.mk0 (fun i => 100 + (i : Int)) 0 (fun _ => 0)

/-- a fresh `ChunkCUDAWeightMgr` state over the same weights. -/
def qInit : CudaState Int := CudaState.mk0 (fun i => 100 + (i : Int)) (fun _ => 0)

/-- the state after `prepare_ids([0])`, `prepare_ids([1])`, `prepare_ids([2])`
on `cfgC` (capacity 2): the third call must evict. -/
def s7one : ParamState Int := (prepareIds cfgC [0] sInit).2

def s7two : ParamState Int := (prepareIds cfgC [1] s7one).2

def s7three : ParamState Int := (prepareIds cfgC [2] s7two).2

/-- The eviction performed on `s7two` (capacity-2 table holding chunks 0, 1,
empty backlist). -/
def s7evict : Int × ParamState Int :=
  match evictChunk cfgC s7two with
  | .ok p => p
  | .error _ => (0, s7two)

/-- `s7two` with every resident chunk backlisted. -/
def s7pinned : ParamState Int := { s7two with evictBacklist := [0, 1] }

theorem good_s7one : Good cfgC s7one :=
  (prepareIds_ok_good (good_mk0 cfgC _ _ _) (by decide)
    (rfl : prepareIds cfgC [0] sInit = (.ok [0], s7one))).1

theorem good_s7two : Good cfgC s7two :=
  (prepareIds_ok_good good_s7one (by decide)
    (rfl : prepareIds cfgC [1] s7one = (.ok [1], s7two))).1

/-- C1: for every row id of a successful batch, the returned address is the
device offset of the slot holding that id's chunk plus the id's offset in
chunk, and the output has one address per input id. -/
theorem prepare_ids_address_translation {α : Type} (cfg : MgrCfg) (ids : List Nat)
    (s : ParamState α) (addrs : List Int) (s' : ParamState α) (hg : Good cfg s)
    (hbound : ∀ i ∈ ids, (cfg.imt i).1 < cfg.chunkNum)
    (h : prepareIds cfg ids s = (.ok addrs, s')) :
    addrs.length = ids.length ∧
    (∀ i ∈ ids, (slotOffsetOf s'.cachedChunkTable (cfg.imt i).1).isSome) ∧
    addrs = ids.map fun i =>
      (slotOffsetOf s'.cachedChunkTable (cfg.imt i).1).getD 0 + ((cfg.imt i).2 : Int) := by
  obtain ⟨hGood', hresW, -, haddrs, -, -, -⟩ := prepareIds_ok_good hg hbound h
  have hfindW : ∀ i ∈ ids,
      ∃ f, (s'.cachedChunkTable.find? fun e => e.2.1 == (cfg.imt i).1) = some f := by
    intro i hi
    have hc : (cfg.imt i).1 ∈ workingSet cfg ids := workingSet_mem.mpr ⟨i, hi, rfl⟩
    rcases chunkInCuda_iff.mp (hresW _ hc) with ⟨e, he, hee⟩
    have hsome : (s'.cachedChunkTable.find? fun f => f.2.1 == (cfg.imt i).1).isSome := by
      rw [List.find?_isSome]
      exact ⟨e, he, by simpa using hee⟩
    cases hfound : s'.cachedChunkTable.find? fun f => f.2.1 == (cfg.imt i).1 with
    | none => rw [hfound] at hsome; cases hsome
    | some f => exact ⟨f, rfl⟩
  refine ⟨by rw [haddrs, List.length_map], ?_, ?_⟩
  · intro i hi
    rcases hfindW i hi with ⟨f, hfound⟩
    rw [slotOffsetOf, hfound]
    rfl
  · rw [haddrs]
    refine List.map_congr_left ?_
    intro i hi
    rcases hfindW i hi with ⟨f, hfound⟩
    have hfmem := List.mem_of_find?_eq_some hfound
    have hfchunk : f.2.1 = (cfg.imt i).1 := by simpa using List.find?_some hfound
    obtain ⟨-, -, hcct, -⟩ := hGood'
    have hco : s'.cct f.2.1 = f.2.2 := hcct f hfmem
    rw [addressOf, slotOffsetOf, hfound, ← hfchunk, hco]
    rfl

theorem prepare_ids_address_translation_witness :
    ([0, 1, 2] : List Int) = ([0, 1, 2] : List Nat).map fun i =>
      (slotOffsetOf ((prepareIds cfgA [0, 1, 2] sInit).2).cachedChunkTable
        (cfgA.imt i).1).getD 0 + ((cfgA.imt i).2 : Int) :=
  (prepare_ids_address_translation cfgA [0, 1, 2] sInit [0, 1, 2]
    (prepareIds cfgA [0, 1, 2] sInit).2 (good_mk0 cfgA _ _ _) (by decide) rfl).2.2

/-- C2: a batch whose working set exceeds the slot count fails the capacity
assert with the whole state (in particular the slot table) untouched, while a
working set of exactly the slot count never raises CapacityExceeded. -/
theorem prepare_ids_capacity_check {α : Type} (cfg : MgrCfg) (ids : List Nat)
    (s : ParamState α) :
    (cfg.cudaChunkNum < (workingSet cfg ids).length →
      prepareIds cfg ids s = (.error .capacityExceeded, s)) ∧
    ((workingSet cfg ids).length = cfg.cudaChunkNum →
      (prepareIds cfg ids s).1 ≠ .error .capacityExceeded) := by
  refine ⟨fun hcap => prepareIds_capacity hcap, ?_⟩
  intro hlen heq
  have : CacheErr.capacityExceeded = CacheErr.evictionImpossible :=
    prepareIds_error_kind (by omega) heq
  cases this

theorem prepare_ids_capacity_check_witness :
    prepareIds cfgB [0, 1] sInit = (.error .capacityExceeded, sInit) ∧
    (prepareIds cfgA [0, 1, 2, 3] sInit).1 ≠ .error .capacityExceeded :=
  ⟨(prepare_ids_capacity_check cfgB [0, 1] sInit).1 (by decide),
   (prepare_ids_capacity_check cfgA [0, 1, 2, 3] sInit).2 (by decide)⟩

/-- C3: eviction only ever selects a resident chunk outside the backlist;
when every resident chunk is backlisted `_evict` raises EvictionImpossible;
and a working-set chunk resident at the start of `prepare_ids` is still
resident in the state the call leaves behind, whether it succeeds or raises. -/
theorem backlist_protects_working_set {α : Type} (cfg : MgrCfg) :
    (∀ (s : ParamState α) (slot : Int) (s1 : ParamState α),
      evictChunk cfg s = .ok (slot, s1) →
      ∃ chunk off, (slot, chunk, off) ∈ s.cachedChunkTable ∧
        chunk ∉ s.evictBacklist) ∧
    (∀ s : ParamState α,
      (∀ e ∈ s.cachedChunkTable, e.2.1 ∈ s.evictBacklist) →
      evictChunk cfg s = .error .evictionImpossible) ∧
    (∀ (ids : List Nat) (s : ParamState α) (c : Nat), Good cfg s →
      (∀ i ∈ ids, (cfg.imt i).1 < cfg.chunkNum) →
      c ∈ workingSet cfg ids → chunkInCuda s.cachedChunkTable c = true →
      chunkInCuda (prepareIds cfg ids s).2.cachedChunkTable c = true) := by
  refine ⟨?_, ?_, ?_⟩
  · intro s slot s1 h
    obtain ⟨chunk, off, hsel, -⟩ := evictChunk_inv h
    obtain ⟨hmem, hbl, -⟩ := evictSelect_result hsel
    exact ⟨chunk, off, hmem, hbl⟩
  · intro s hall
    unfold evictChunk
    rw [evictSelect_none_of_backlisted hall]
  · intro ids s c hg hbound hc hres
    exact prepareIds_preserves_workingSet hg hbound hc hres

theorem backlist_protects_working_set_witness :
    (∃ chunk off, (s7evict.1, chunk, off) ∈ s7two.cachedChunkTable ∧
      chunk ∉ s7two.evictBacklist) ∧
    evictChunk cfgC s7pinned = .error .evictionImpossible ∧
    chunkInCuda (prepareIds cfgC [1, 2] s7two).2.cachedChunkTable 1 = true :=
  ⟨(backlist_protects_working_set cfgC).1 s7two s7evict.1 s7evict.2 rfl,
   (backlist_protects_working_set cfgC).2.1 s7pinned (by decide),
   (backlist_protects_working_set cfgC).2.2 [1, 2] s7two 1 good_s7two (by decide)
     (by decide) (by decide)⟩

/-- C4: after a successful `prepare_ids` the state is consistent again — at
most `cuda_chunk_num` resident chunks, every working-set chunk resident, at
most one slot per chunk id, and the slot table, offset dict, flag table, `CCT`
and resident-id list mutually consistent — and each single `_admit` and
`_evict` preserves that consistency. -/
theorem prepare_ids_invariants {α : Type} (cfg : MgrCfg) (ids : List Nat)
    (s : ParamState α) (addrs : List Int) (s' : ParamState α) (hg : Good cfg s)
    (hbound : ∀ i ∈ ids, (cfg.imt i).1 < cfg.chunkNum)
    (h : prepareIds cfg ids s = (.ok addrs, s')) :
    Good cfg s' ∧
    s'.cachedChunkTable.length ≤ cfg.cudaChunkNum ∧
    (∀ c ∈ workingSet cfg ids, chunkInCuda s'.cachedChunkTable c = true) ∧
    (∀ (s2 : ParamState α) (slot : Int) (s3 : ParamState α), Good cfg s2 →
      evictChunk cfg s2 = .ok (slot, s3) → Good cfg s3) ∧
    (∀ (s2 : ParamState α) (c : Nat) (s3 : ParamState α), Good cfg s2 →
      chunkInCuda s2.cachedChunkTable c = false → c < cfg.chunkNum →
      admitChunk cfg c s2 = .ok s3 → Good cfg s3) := by
  obtain ⟨hGood', hresW, -, -, -, -, -⟩ := prepareIds_ok_good hg hbound h
  refine ⟨hGood', hGood'.1.length_le, hresW, ?_, ?_⟩
  · intro s2 slot s3 hg2 hev
    exact (good_evictChunk hg2 hev).1
  · intro s2 c s3 hg2 hres2 hc2 hadm
    exact (good_admitChunk hg2 hres2 hc2 hadm).1

theorem prepare_ids_invariants_witness :
    Good cfgA (prepareIds cfgA [0, 1, 2] sInit).2 ∧
    (prepareIds cfgA [0, 1, 2] sInit).2.cachedChunkTable.length ≤ cfgA.cudaChunkNum :=
  ⟨(prepare_ids_invariants cfgA [0, 1, 2] sInit [0, 1, 2]
      (prepareIds cfgA [0, 1, 2] sInit).2 (good_mk0 cfgA _ _ _) (by decide) rfl).1,
   (prepare_ids_invariants cfgA [0, 1, 2] sInit [0, 1, 2]
      (prepareIds cfgA [0, 1, 2] sInit).2 (good_mk0 cfgA _ _ _) (by decide) rfl).2.1⟩

/-- C5: the evicted chunk is the resident chunk with the smallest chunk id
outside the backlist, and its full payload (all chunk_size rows, i.e. all
chunk_size * embedding_dim elements) is copied from the cuda buffer back to
the cpu weight while its slot is freed. -/
theorem evict_min_chunk_full_writeback {α : Type} (cfg : MgrCfg)
    (s : ParamState α) (slot : Int) (s1 : ParamState α) (hg : Good cfg s)
    (h : evictChunk cfg s = .ok (slot, s1)) :
    ∃ chunk off,
      (slot, chunk, off) ∈ s.cachedChunkTable ∧
      chunk ∉ s.evictBacklist ∧
      (∀ f ∈ s.cachedChunkTable, f.2.1 ∉ s.evictBacklist → chunk ≤ f.2.1) ∧
      (∀ k, k < cfg.chunkSize * cfg.embeddingDim →
        s1.cpuWeight (chunk * cfg.chunkSize * cfg.embeddingDim + k) =
          s.cudaWeight (off * cfg.embeddingDim + (k : Int))) ∧
      chunkInCuda s1.cachedChunkTable chunk = false ∧
      slotOccupied s1.cachedChunkTable slot = false := by
  obtain ⟨-, chunk, off, hvmem, hvbl, hriff⟩ := good_evictChunk hg h
  obtain ⟨-, -, hfree⟩ := evictChunk_slot_free hg h
  obtain ⟨chunk2, off2, hsel, heq⟩ := evictChunk_inv h
  obtain ⟨hvmem2, -, -⟩ := evictSelect_result hsel
  obtain ⟨⟨hslotnd, -, -⟩, -, -, -, -, -, -⟩ := hg
  have hsame : (slot, chunk, off) = (slot, chunk2, off2) :=
    List.inj_on_of_nodup_map hslotnd hvmem hvmem2 rfl
  injection hsame with hseq hsame2
  injection hsame2 with hceq hoeq
  subst hceq
  subst hoeq
  refine ⟨chunk, off, hvmem, hvbl, ?_, ?_, ?_, hfree⟩
  · intro f hf hfbl
    exact evictSelect_min hsel f hf hfbl
  · intro k hk
    subst heq
    show copyToCpu s.cudaWeight (off * cfg.embeddingDim) s.cpuWeight
      (chunk * cfg.chunkSize * cfg.embeddingDim) (cfg.chunkSize * cfg.embeddingDim)
      (chunk * cfg.chunkSize * cfg.embeddingDim + k) = _
    rw [copyToCpu]
    rw [if_pos (by omega)]
    congr 1
    omega
  · rw [← Bool.not_eq_true]
    intro hcontra
    exact ((hriff chunk).mp hcontra).2 rfl

theorem evict_min_chunk_full_writeback_witness :
    ∃ chunk off,
      (s7evict.1, chunk, off) ∈ s7two.cachedChunkTable ∧
      chunk ∉ s7two.evictBacklist ∧
      (∀ f ∈ s7two.cachedChunkTable, f.2.1 ∉ s7two.evictBacklist → chunk ≤ f.2.1) ∧
      (∀ k, k < cfgC.chunkSize * cfgC.embeddingDim →
        s7evict.2.cpuWeight (chunk * cfgC.chunkSize * cfgC.embeddingDim + k) =
          s7two.cudaWeight (off * cfgC.embeddingDim + (k : Int))) ∧
      chunkInCuda s7evict.2.cachedChunkTable chunk = false ∧
      slotOccupied s7evict.2.cachedChunkTable s7evict.1 = false :=
  evict_min_chunk_full_writeback cfgC s7two s7evict.1 s7evict.2 good_s7two rfl

/-- C9: repeating an identical batch right after a successful call returns
the very same address list and records |W| hits and zero misses. -/
theorem prepare_ids_idempotent {α : Type} (cfg : MgrCfg) (ids : List Nat)
    (s : ParamState α) (addrs : List Int) (s' : ParamState α) (hg : Good cfg s)
    (hbound : ∀ i ∈ ids, (cfg.imt i).1 < cfg.chunkNum)
    (h : prepareIds cfg ids s = (.ok addrs, s')) :
    prepareIds cfg ids s' =
      (.ok addrs,
       { s' with
         evictBacklist := [],
         numHitsHistory := s'.numHitsHistory ++ [(workingSet cfg ids).length],
         numMissHistory := s'.numMissHistory ++ [0],
         numWriteBackHistory := s'.numWriteBackHistory ++ [0] }) := by
  obtain ⟨hcap, -⟩ := prepareIds_ok_inv h
  obtain ⟨hGood', hresW, -, haddrs, -, -, -⟩ := prepareIds_ok_good hg hbound h
  have hflags : ∀ c ∈ workingSet cfg ids, s'.chunkFlag c = false := by
    intro c hc
    obtain ⟨-, hflagiff, -⟩ := hGood'
    exact (hflagiff c).mpr (hresW c hc)
  rw [prepareIds_all_hits (by omega) hflags, haddrs]

theorem prepare_ids_idempotent_witness :
    prepareIds cfgA [0, 1] (prepareIds cfgA [0, 1] sInit).2 =
      (.ok [0, 1],
       { (prepareIds cfgA [0, 1] sInit).2 with
         evictBacklist := [],
         numHitsHistory :=
           (prepareIds cfgA [0, 1] sInit).2.numHitsHistory ++
             [(workingSet cfgA [0, 1]).length],
         numMissHistory := (prepareIds cfgA [0, 1] sInit).2.numMissHistory ++ [0],
         numWriteBackHistory :=
           (prepareIds cfgA [0, 1] sInit).2.numWriteBackHistory ++ [0] }) :=
  prepare_ids_idempotent cfgA [0, 1] sInit [0, 1] (prepareIds cfgA [0, 1] sInit).2
    (good_mk0 cfgA _ _ _) (by decide) rfl

theorem insertByFreqDesc_perm (freq : List Nat) (x : Nat) :
    ∀ l : List Nat, (insertByFreqDesc freq x l).Perm (x :: l) := by
  intro l
  induction l with
  | nil => exact List.Perm.refl _
  | cons y ys ih =>
    by_cases hc : freqAt freq y < freqAt freq x
    · rw [insertByFreqDesc, if_pos hc]
    · rw [insertByFreqDesc, if_neg hc]
      exact (ih.cons y).trans (List.Perm.swap x y ys)

theorem argsortDesc_perm (freq : List Nat) :
    (argsortDesc freq).Perm (List.range freq.length) := by
  rw [argsortDesc]
  generalize List.range freq.length = l
  induction l with
  | nil => exact List.Perm.refl _
  | cons a l ih =>
    exact (insertByFreqDesc_perm freq a _).trans (ih.cons a)

theorem insertByFreqDesc_pairwise (freq : List Nat) (x : Nat) :
    ∀ {l : List Nat}, (l.Pairwise fun a b => freqAt freq b ≤ freqAt freq a) →
      ((insertByFreqDesc freq x l).Pairwise fun a b => freqAt freq b ≤ freqAt freq a) := by
  intro l
  induction l with
  | nil => intro _; simp [insertByFreqDesc]
  | cons y ys ih =>
    intro hp
    rcases List.pairwise_cons.mp hp with ⟨hy, hys⟩
    by_cases hc : freqAt freq y < freqAt freq x
    · rw [insertByFreqDesc, if_pos hc]
      refine List.pairwise_cons.mpr ⟨?_, hp⟩
      intro z hz
      rcases List.mem_cons.mp hz with rfl | hz2
      · exact le_of_lt hc
      · exact le_trans (hy z hz2) (le_of_lt hc)
    · rw [insertByFreqDesc, if_neg hc]
      refine List.pairwise_cons.mpr ⟨?_, ih hys⟩
      intro z hz
      rcases (insertByFreqDesc_perm freq x ys).mem_iff.mp hz with hz2
      rcases List.mem_cons.mp hz2 with rfl | hz3
      · omega
      · exact hy z hz3

theorem argsortDesc_sorted (freq : List Nat) :
    (argsortDesc freq).Pairwise fun a b => freqAt freq b ≤ freqAt freq a := by
  rw [argsortDesc]
  generalize List.range freq.length = l
  induction l with
  | nil => simp
  | cons a l ih => exact insertByFreqDesc_pairwise freq a ih

/-- `flush` ends with an empty slot table, transfers one full chunk per
resident entry, and never touches the write-back history. -/
theorem flushChunks_spec {α : Type} {cfg : MgrCfg} :
    ∀ (n : Nat) (s s1 : ParamState α), s.cachedChunkTable.length ≤ n →
      flushChunks cfg s = .ok s1 →
      s1.numWriteBackHistory = s.numWriteBackHistory ∧
      s1.cachedChunkTable = [] ∧
      s1.cudaToCpuNumel = s.cudaToCpuNumel +
        s.cachedChunkTable.length * (cfg.chunkSize * cfg.embeddingDim) := by
  intro n
  induction n with
  | zero =>
    intro s s1 hlen h
    have hnil : s.cachedChunkTable = [] := List.length_eq_zero.mp (by omega)
    unfold flushChunks at h
    rw [dif_pos hnil] at h
    injection h with h
    subst h
    rw [hnil]
    exact ⟨rfl, rfl, by simp⟩
  | succ n ih =>
    intro s s1 hlen h
    unfold flushChunks at h
    by_cases hnil : s.cachedChunkTable = []
    · rw [dif_pos hnil] at h
      injection h with h
      subst h
      rw [hnil]
      exact ⟨rfl, rfl, by simp⟩
    · rw [dif_neg hnil] at h
      split at h
      · exact Except.noConfusion h
      · rename_i slot s2 heq
        have hlen2 := evictChunk_table_length heq
        obtain ⟨hwb2, htab2, hnum2⟩ := ih s2 s1 (by omega) h
        obtain ⟨ch, off, hsel, hrec⟩ := evictChunk_inv heq
        have hnum_s2 : s2.cudaToCpuNumel =
            s.cudaToCpuNumel + cfg.chunkSize * cfg.embeddingDim := by rw [hrec]
        have hwb_s2 : s2.numWriteBackHistory = s.numWriteBackHistory := by rw [hrec]
        refine ⟨by rw [hwb2, hwb_s2], htab2, ?_⟩
        rw [hnum2, hnum_s2]
        have hls : s.cachedChunkTable.length = s2.cachedChunkTable.length + 1 := by omega
        rw [hls, Nat.succ_mul]
        ring

/-- C7 (amended): an eviction leaves the write-back history untouched (the
increment in `_evict` is commented out) while adding one chunk transfer to
the cuda-to-cpu element counter; `prepare_ids` appends a single `0` entry to
the write-back history; `flush` writes back one full chunk per resident entry
and also leaves the write-back history unchanged while emptying the table. -/
theorem write_back_counter_behavior {α : Type} (cfg : MgrCfg) :
    (∀ (s : ParamState α) (slot : Int) (s1 : ParamState α),
      evictChunk cfg s = .ok (slot, s1) →
      s1.numWriteBackHistory = s.numWriteBackHistory ∧
      s1.cudaToCpuNumel = s.cudaToCpuNumel + cfg.chunkSize * cfg.embeddingDim) ∧
    (∀ (ids : List Nat) (s : ParamState α) (addrs : List Int) (s' : ParamState α),
      prepareIds cfg ids s = (.ok addrs, s') → Good cfg s →
      (∀ i ∈ ids, (cfg.imt i).1 < cfg.chunkNum) →
      s'.numWriteBackHistory = s.numWriteBackHistory ++ [0]) ∧
    (∀ (s s1 : ParamState α), flushChunks cfg s = .ok s1 →
      s1.numWriteBackHistory = s.numWriteBackHistory ∧
      s1.cachedChunkTable = [] ∧
      s1.cudaToCpuNumel = s.cudaToCpuNumel +
        s.cachedChunkTable.length * (cfg.chunkSize * cfg.embeddingDim)) := by
  refine ⟨?_, ?_, ?_⟩
  · intro s slot s1 h
    obtain ⟨ch, off, hsel, rfl⟩ := evictChunk_inv h
    exact ⟨rfl, rfl⟩
  · intro ids s addrs s' h hg hbound
    exact (prepareIds_ok_good hg hbound h).2.2.2.2.1
  · intro s s1 h
    exact flushChunks_spec s.cachedChunkTable.length s s1 (le_refl _) h

theorem write_back_counter_behavior_witness :
    (s7evict.2.numWriteBackHistory = s7two.numWriteBackHistory ∧
     s7evict.2.cudaToCpuNumel = s7two.cudaToCpuNumel +
       cfgC.chunkSize * cfgC.embeddingDim) ∧
    s7three.numWriteBackHistory = s7two.numWriteBackHistory ++ [0] ∧
    (sInit.numWriteBackHistory = sInit.numWriteBackHistory ∧
     sInit.cachedChunkTable = [] ∧
     sInit.cudaToCpuNumel = sInit.cudaToCpuNumel +
       sInit.cachedChunkTable.length * (cfgC.chunkSize * cfgC.embeddingDim)) :=
  ⟨(write_back_counter_behavior cfgC).1 s7two s7evict.1 s7evict.2 rfl,
   (write_back_counter_behavior cfgC).2.1 [2] s7two [0] s7three rfl good_s7two
     (by decide),
   (write_back_counter_behavior cfgC).2.2 sInit sInit
     (by unfold flushChunks; rw [dif_pos (show sInit.cachedChunkTable = [] from rfl)])⟩

/-- C7 counterexample: the third call of the reference scenario performs an
eviction (chunk 0 stops being resident and one chunk of elements is
transferred back), yet the write-back history stays all zero — the counter
does not increase by 1 on the eviction. -/
theorem write_back_counter_counterexample :
    chunkInCuda s7two.cachedChunkTable 0 = true ∧
    chunkInCuda s7three.cachedChunkTable 0 = false ∧
    s7three.cudaToCpuNumel = s7two.cudaToCpuNumel + 1 ∧
    s7three.numWriteBackHistory = [0, 0, 0] := by
  refine ⟨by decide, by decide, by decide, by decide⟩

/-- C8 (amended): without a frequency list the mapping is the identity
`id ↦ (id / chunk_size, id % chunk_size)`; with one, `sorted_idx` is a
permutation of the ids along which frequencies are non-increasing, and id `i`
receives `(sorted_idx[i] / chunk_size, sorted_idx[i] % chunk_size)` — the
argsort value at position `i`, not the rank of id `i`. -/
theorem reorder_mapping_characterization :
    (∀ n cs i, i < n → reorderIMT none n cs i = (i / cs, i % cs)) ∧
    (∀ freq : List Nat,
      (argsortDesc freq).Perm (List.range freq.length) ∧
      (argsortDesc freq).Pairwise fun a b => freqAt freq b ≤ freqAt freq a) ∧
    (∀ (freq : List Nat) (n cs i : Nat),
      reorderIMT (some freq) n cs i =
        ((argsortDesc freq).getD i 0 / cs, (argsortDesc freq).getD i 0 % cs)) := by
  refine ⟨?_, ?_, fun freq n cs i => rfl⟩
  · intro n cs i hi
    show ((List.range n).getD i 0 / cs, (List.range n).getD i 0 % cs) = (i / cs, i % cs)
    rw [List.getD_eq_getElem?_getD, List.getElem?_range hi]
    rfl
  · intro freq
    exact ⟨argsortDesc_perm freq, argsortDesc_sorted freq⟩

theorem reorder_mapping_characterization_witness :
    reorderIMT none 8 2 5 = (5 / 2, 5 % 2) :=
  reorder_mapping_characterization.1 8 2 5 (by decide)

/-- C8 counterexample: for frequencies `[5, 1, 10]` and chunk_size 2, id 0 has
descending-frequency rank 1, so the claimed mapping gives `(0, 1)`, but the
code maps id 0 through `sorted_idx[0] = 2` to `(1, 0)`. -/
theorem reorder_rank_counterexample :
    reorderIMT (some [5, 1, 10]) 3 2 0 = (1, 0) ∧
    specRankIMT [5, 1, 10] 2 0 = (0, 1) ∧
    reorderIMT (some [5, 1, 10]) 3 2 0 ≠ specRankIMT [5, 1, 10] 2 0 := by
  refine ⟨by decide, by decide, by decide⟩

/-- C6: a successful `ChunkCUDAWeightMgr.prepare_ids` call leaves the batch
working set in `evict_backlist` after returning (line 129 of
freq_aware_embedding.py is a bare expression, not an assignment), while the
`ChunkParamMgr` version resets the backlist to empty before returning. -/
theorem cuda_backlist_retained_after_return :
    (cudaPrepareIds cfgA [0, 1] qInit).1 = .ok [0, 1] ∧
    (cudaPrepareIds cfgA [0, 1] qInit).2.evictBacklist = [0] ∧
    (prepareIds cfgA [0, 1] sInit).2.evictBacklist = [] := by
  refine ⟨rfl, by decide, by decide⟩

/-! ### Observational comparison of the two manager implementations -/

theorem findFreeCudaSlot_ne_of_free {cap : Nat} {table : List SlotEntry}
    {slot : Int} (h0 : 0 ≤ slot) (h1 : slot < (cap : Int))
    (hfree : slotOccupied table slot = false) :
    findFreeCudaSlot cap table ≠ -1 := by
  intro hff
  have hocc := findFreeCudaSlot_none hff slot.toNat (by omega)
  rw [show Int.ofNat slot.toNat = slot from by
    rw [Int.ofNat_eq_coe, Int.toNat_of_nonneg h0]] at hocc
  rw [hocc] at hfree
  cases hfree

theorem admitChunk_free {α : Type} {cfg : MgrCfg} (c : Nat) {s : ParamState α}
    (hff : findFreeCudaSlot cfg.cudaChunkNum s.cachedChunkTable ≠ -1) :
    admitChunk cfg c s = .ok (admitIntoSlot cfg c
      (findFreeCudaSlot cfg.cudaChunkNum s.cachedChunkTable) s) := by
  simp only [admitChunk]
  rw [if_neg (by simpa using hff)]

theorem cudaAdmitChunk_free {β : Type} {cfg : MgrCfg} (c : Nat) {q : CudaState β}
    (hff : findFreeCudaSlot cfg.cudaChunkNum q.cachedChunkTable ≠ -1) :
    cudaAdmitChunk cfg c q = .ok (cudaAdmitIntoSlot cfg c
      (findFreeCudaSlot cfg.cudaChunkNum q.cachedChunkTable) q) := by
  simp only [cudaAdmitChunk]
  rw [if_neg (by simpa using hff)]

theorem cudaEvictChunk_inv {β : Type} {cfg : MgrCfg} {q q2 : CudaState β}
    (h : cudaEvictChunk cfg q = .ok q2) :
    ∃ slot chunk off,
      evictSelect cfg.chunkNum q.evictBacklist q.cachedChunkTable =
        some (slot, chunk, off) ∧
      q2 = { q with
        cpuWeight := copyToCpu q.cudaWeight off q.cpuWeight
          (chunk * cfg.chunkSize * cfg.embeddingDim) (cfg.chunkSize * cfg.embeddingDim),
        cachedChunkTable := q.cachedChunkTable.eraseP (fun e => e.1 == slot),
        chunkIdCudaOffset := eraseKey q.chunkIdCudaOffset chunk,
        cudaToCpuNumel := q.cudaToCpuNumel + cfg.chunkSize * cfg.embeddingDim } := by
  unfold cudaEvictChunk at h
  cases hsel : evictSelect cfg.chunkNum q.evictBacklist q.cachedChunkTable with
  | none => rw [hsel] at h; cases h
  | some e =>
    obtain ⟨sl, ch, off⟩ := e
    rw [hsel] at h
    injection h with h
    exact ⟨sl, ch, off, rfl, h.symm⟩

/-- Step-by-step correspondence of the two admission loops: started on equal
slot tables, offset dicts and backlists (with every listed chunk backlisted,
as each `prepare_ids` arranges), `_prepare_cuda_chunks` of
`ChunkCUDAWeightMgr` and `_prepare_chunks_on_cuda` of `ChunkParamMgr` return
the same exception (if any) and leave equal slot tables, offset dicts and
backlists. -/
theorem cudaPrepareChunks_equiv {α β : Type} {cfg : MgrCfg} :
    ∀ (L : List Nat) (p : ParamState α) (q : CudaState β),
      Good cfg p →
      q.cachedChunkTable = p.cachedChunkTable →
      q.chunkIdCudaOffset = p.chunkIdCudaOffset →
      q.evictBacklist = p.evictBacklist →
      (∀ c ∈ L, c ∈ p.evictBacklist) →
      (∀ c ∈ L, c < cfg.chunkNum) →
      (cudaPrepareChunks cfg L q).1 = (prepareChunksOnCuda cfg L p).1 ∧
      (cudaPrepareChunks cfg L q).2.cachedChunkTable =
        (prepareChunksOnCuda cfg L p).2.cachedChunkTable ∧
      (cudaPrepareChunks cfg L q).2.chunkIdCudaOffset =
        (prepareChunksOnCuda cfg L p).2.chunkIdCudaOffset ∧
      (cudaPrepareChunks cfg L q).2.evictBacklist =
        (prepareChunksOnCuda cfg L p).2.evictBacklist := by
  intro L
  induction L with
  | nil =>
    intro p q _ htab hoffm hbck _ _
    exact ⟨rfl, htab, hoffm, hbck⟩
  | cons c rest ih =>
    intro p q hg htab hoffm hbck hbl hbound
    by_cases hres : chunkInCuda p.cachedChunkTable c = true
    · have hresq : chunkInCuda q.cachedChunkTable c = true := by rw [htab]; exact hres
      have hp : prepareChunksOnCuda cfg (c :: rest) p = prepareChunksOnCuda cfg rest p := by
        rw [prepareChunksOnCuda, if_pos hres]
      have hq : cudaPrepareChunks cfg (c :: rest) q = cudaPrepareChunks cfg rest q := by
        rw [cudaPrepareChunks, if_pos hresq]
      rw [hp, hq]
      exact ih p q hg htab hoffm hbck (fun d hd => hbl d (List.mem_cons_of_mem _ hd))
        (fun d hd => hbound d (List.mem_cons_of_mem _ hd))
    · have hres2 : chunkInCuda p.cachedChunkTable c = false := Bool.eq_false_iff.mpr hres
      have hresq : ¬ chunkInCuda q.cachedChunkTable c = true := by rw [htab]; exact hres
      by_cases hff : findFreeCudaSlot cfg.cudaChunkNum p.cachedChunkTable = -1
      · -- the table is full: both loops pre-evict
        have hffq : findFreeCudaSlot cfg.cudaChunkNum q.cachedChunkTable = -1 := by
          rw [htab]; exact hff
        cases hsel : evictSelect cfg.chunkNum p.evictBacklist p.cachedChunkTable with
        | none =>
          -- both evictions raise EvictionImpossible
          have hselq : evictSelect cfg.chunkNum q.evictBacklist q.cachedChunkTable =
              none := by rw [htab, hbck]; exact hsel
          have hevp : evictChunk cfg p = .error .evictionImpossible := by
            unfold evictChunk; rw [hsel]
          have hevq : cudaEvictChunk cfg q = .error .evictionImpossible := by
            unfold cudaEvictChunk; rw [hselq]
          have hpre : (if findFreeCudaSlot cfg.cudaChunkNum p.cachedChunkTable == -1 then
              (evictChunk cfg p).map (fun r => r.2) else .ok p) =
              (.error .evictionImpossible : Except CacheErr (ParamState α)) := by
            rw [if_pos (by simpa using hff), hevp]
            rfl
          have hpreq : (if findFreeCudaSlot cfg.cudaChunkNum q.cachedChunkTable == -1 then
              cudaEvictChunk cfg q else .ok q) =
              (.error .evictionImpossible : Except CacheErr (CudaState β)) := by
            rw [if_pos (by simpa using hffq), hevq]
          have hp : prepareChunksOnCuda cfg (c :: rest) p =
              (some .evictionImpossible, p) := by
            rw [prepareChunksOnCuda, if_neg (by simpa using hres), hpre]
          have hq : cudaPrepareChunks cfg (c :: rest) q =
              (some .evictionImpossible, q) := by
            rw [cudaPrepareChunks, if_neg (by simpa using hresq), hpreq]
          rw [hp, hq]
          exact ⟨rfl, htab, hoffm, hbck⟩
        | some v =>
          obtain ⟨slot, chunk, off⟩ := v
          have hselq : evictSelect cfg.chunkNum q.evictBacklist q.cachedChunkTable =
              some (slot, chunk, off) := by rw [htab, hbck]; exact hsel
          -- run the two evictions
          cases hevp : evictChunk cfg p with
          | error e =>
            exfalso
            unfold evictChunk at hevp
            rw [hsel] at hevp
            cases hevp
          | ok pr =>
            obtain ⟨slot2, p2⟩ := pr
            obtain ⟨chunk2, off2, hsel2, hrec⟩ := evictChunk_inv hevp
            rw [hsel] at hsel2
            injection hsel2 with hsel2
            injection hsel2 with hseq hsel2
            injection hsel2 with hceq hoeq
            subst hseq; subst hceq; subst hoeq
            cases hevq : cudaEvictChunk cfg q with
            | error e =>
              exfalso
              unfold cudaEvictChunk at hevq
              rw [hselq] at hevq
              cases hevq
            | ok q2 =>
              obtain ⟨slotq, chunkq, offq, hselq2, hrecq⟩ := cudaEvictChunk_inv hevq
              rw [hselq] at hselq2
              injection hselq2 with hselq2
              injection hselq2 with hseq2 hselq2
              injection hselq2 with hceq2 hoeq2
              subst hseq2; subst hceq2; subst hoeq2
              -- the two states still correspond
              have htab2 : q2.cachedChunkTable = p2.cachedChunkTable := by
                rw [hrec, hrecq]
                show q.cachedChunkTable.eraseP (fun e => e.1 == slot) =
                  p.cachedChunkTable.eraseP (fun e => e.1 == slot)
                rw [htab]
              have hoffm2 : q2.chunkIdCudaOffset = p2.chunkIdCudaOffset := by
                rw [hrec, hrecq]
                show eraseKey q.chunkIdCudaOffset chunk = eraseKey p.chunkIdCudaOffset chunk
                rw [hoffm]
              have hbck2 : q2.evictBacklist = p2.evictBacklist := by
                rw [hrec, hrecq]
                exact hbck
              obtain ⟨hg2, chunk3, off3, hvmem3, hvbl3, hriff⟩ := good_evictChunk hg hevp
              have hres3 : chunkInCuda p2.cachedChunkTable c = false := by
                rw [← Bool.not_eq_true]
                intro hcontra
                exact hres ((hriff c).mp hcontra).1
              obtain ⟨h0, h1, hfree⟩ := evictChunk_slot_free hg hevp
              have hff2 : findFreeCudaSlot cfg.cudaChunkNum p2.cachedChunkTable ≠ -1 :=
                findFreeCudaSlot_ne_of_free h0 h1 hfree
              have hffq2 : findFreeCudaSlot cfg.cudaChunkNum q2.cachedChunkTable ≠ -1 := by
                rw [htab2]; exact hff2
              obtain ⟨hf0, hf1, hffree⟩ := findFreeCudaSlot_spec hff2
              -- both admissions land in the same free slot
              have hadm := admitChunk_free c hff2
              have hadmq := cudaAdmitChunk_free c hffq2
              have hpre : (if findFreeCudaSlot cfg.cudaChunkNum p.cachedChunkTable == -1 then
                  (evictChunk cfg p).map (fun r => r.2) else .ok p) = .ok p2 := by
                rw [if_pos (by simpa using hff), hevp]
                rfl
              have hpreq : (if findFreeCudaSlot cfg.cudaChunkNum q.cachedChunkTable == -1 then
                  cudaEvictChunk cfg q else .ok q) = .ok q2 := by
                rw [if_pos (by simpa using hffq), hevq]
              have hp : prepareChunksOnCuda cfg (c :: rest) p =
                  prepareChunksOnCuda cfg rest
                    (admitIntoSlot cfg c
                      (findFreeCudaSlot cfg.cudaChunkNum p2.cachedChunkTable) p2) := by
                rw [prepareChunksOnCuda, if_neg (by simpa using hres), hpre]
                show (match admitChunk cfg c p2 with
                  | .error e2 => (some e2, p2)
                  | .ok s2 => prepareChunksOnCuda cfg rest s2) = _
                rw [hadm]
              have hq : cudaPrepareChunks cfg (c :: rest) q =
                  cudaPrepareChunks cfg rest
                    (cudaAdmitIntoSlot cfg c
                      (findFreeCudaSlot cfg.cudaChunkNum q2.cachedChunkTable) q2) := by
                rw [cudaPrepareChunks, if_neg (by simpa using hresq), hpreq]
                show (match cudaAdmitChunk cfg c q2 with
                  | .error e2 => (some e2, q2)
                  | .ok s2 => cudaPrepareChunks cfg rest s2) = _
                rw [hadmq]
              rw [hp, hq]
              have hffsame : findFreeCudaSlot cfg.cudaChunkNum q2.cachedChunkTable =
                  findFreeCudaSlot cfg.cudaChunkNum p2.cachedChunkTable := by
                rw [htab2]
              have hg3 := good_admitIntoSlot hg2 hres3 hf0 hf1 hffree
                (hbound c (List.mem_cons_self _ _))
              refine ih _ _ hg3 ?_ ?_ ?_ ?_ ?_
              · show q2.cachedChunkTable ++ [_] = p2.cachedChunkTable ++ [_]
                rw [htab2]
              · show setKey q2.chunkIdCudaOffset c _ = setKey p2.chunkIdCudaOffset c _
                rw [hoffm2, hffsame]
              · show q2.evictBacklist = p2.evictBacklist
                exact hbck2
              · intro d hd
                show d ∈ p2.evictBacklist
                rw [hrec]
                exact hbl d (List.mem_cons_of_mem _ hd)
              · exact fun d hd => hbound d (List.mem_cons_of_mem _ hd)
      · -- a free slot exists: both admit directly
        have hffq : findFreeCudaSlot cfg.cudaChunkNum q.cachedChunkTable ≠ -1 := by
          rw [htab]; exact hff
        obtain ⟨hf0, hf1, hffree⟩ := findFreeCudaSlot_spec hff
        have hadm := admitChunk_free c hff
        have hadmq := cudaAdmitChunk_free c hffq
        have hpre : (if findFreeCudaSlot cfg.cudaChunkNum p.cachedChunkTable == -1 then
            (evictChunk cfg p).map (fun r => r.2) else .ok p) = .ok p := by
          rw [if_neg (by simpa using hff)]
        have hpreq : (if findFreeCudaSlot cfg.cudaChunkNum q.cachedChunkTable == -1 then
            cudaEvictChunk cfg q else .ok q) = .ok q := by
          rw [if_neg (by simpa using hffq)]
        have hp : prepareChunksOnCuda cfg (c :: rest) p =
            prepareChunksOnCuda cfg rest
              (admitIntoSlot cfg c
                (findFreeCudaSlot cfg.cudaChunkNum p.cachedChunkTable) p) := by
          rw [prepareChunksOnCuda, if_neg (by simpa using hres), hpre]
          show (match admitChunk cfg c p with
            | .error e2 => (some e2, p)
            | .ok s2 => prepareChunksOnCuda cfg rest s2) = _
          rw [hadm]
        have hq : cudaPrepareChunks cfg (c :: rest) q =
            cudaPrepareChunks cfg rest
              (cudaAdmitIntoSlot cfg c
                (findFreeCudaSlot cfg.cudaChunkNum q.cachedChunkTable) q) := by
          rw [cudaPrepareChunks, if_neg (by simpa using hresq), hpreq]
          show (match cudaAdmitChunk cfg c q with
            | .error e2 => (some e2, q)
            | .ok s2 => cudaPrepareChunks cfg rest s2) = _
          rw [hadmq]
        rw [hp, hq]
        have hffsame : findFreeCudaSlot cfg.cudaChunkNum q.cachedChunkTable =
            findFreeCudaSlot cfg.cudaChunkNum p.cachedChunkTable := by
          rw [htab]
        have hg3 := good_admitIntoSlot hg hres2 hf0 hf1 hffree
          (hbound c (List.mem_cons_self _ _))
        refine ih _ _ hg3 ?_ ?_ ?_ ?_ ?_
        · show q.cachedChunkTable ++ [_] = p.cachedChunkTable ++ [_]
          rw [htab]
        · show setKey q.chunkIdCudaOffset c _ = setKey p.chunkIdCudaOffset c _
          rw [hoffm, hffsame]
        · exact hbck
        · exact fun d hd => hbl d (List.mem_cons_of_mem _ hd)
        · exact fun d hd => hbound d (List.mem_cons_of_mem _ hd)

/-- For a resident chunk of a consistent state, the `chunk_id_cuda_offset`
lookup agrees with the `CCT` entry. -/
theorem lookupKey_eq_cct {α : Type} {cfg : MgrCfg} {s : ParamState α}
    (hg : Good cfg s) {c : Nat} (hres : chunkInCuda s.cachedChunkTable c = true) :
    lookupKey s.chunkIdCudaOffset c = some (s.cct c) := by
  obtain ⟨⟨-, hchunknd, -⟩, -, hcct, hoff, hoffnd, -, -⟩ := hg
  rcases chunkInCuda_iff.mp hres with ⟨e, he, hee⟩
  have hkey : (e.2.1, e.2.2) ∈ s.chunkIdCudaOffset := (hoff e.2.1 e.2.2).mpr ⟨e.1, he⟩
  have hsome : (s.chunkIdCudaOffset.find? fun r => r.1 == c).isSome := by
    rw [List.find?_isSome]
    exact ⟨(e.2.1, e.2.2), hkey, by simpa using hee⟩
  cases hfound : s.chunkIdCudaOffset.find? fun r => r.1 == c with
  | none => rw [hfound] at hsome; cases hsome
  | some r =>
    have hrmem := List.mem_of_find?_eq_some hfound
    have hrkey : r.1 = c := by simpa using List.find?_some hfound
    rcases (hoff r.1 r.2).mp hrmem with ⟨sl, hsl⟩
    have hcctr : s.cct r.1 = r.2 := hcct (sl, r.1, r.2) hsl
    rw [lookupKey, hfound]
    show some r.2 = some (s.cct c)
    rw [← hrkey, hcctr]

/-- C10 (amended): on a single batch whose working set fits the capacity,
`ChunkCUDAWeightMgr.prepare_ids` and `ChunkParamMgr.prepare_ids`, started on
equal slot tables and offset dicts (with the python set of chunk ids modelled
in the same ascending order `torch.unique` produces), return the same result
— the same addresses or the same exception — and equal slot tables and
offset dicts.  (The two implementations are not equivalent in general: the
capacity check, the backlist clearing and the `_admit` eviction branch differ;
see the counterexample.) -/
theorem cuda_param_prepare_ids_agree {α β : Type} (cfg : MgrCfg) (ids : List Nat)
    (p : ParamState α) (q : CudaState β) (hg : Good cfg p)
    (htab : q.cachedChunkTable = p.cachedChunkTable)
    (hoffm : q.chunkIdCudaOffset = p.chunkIdCudaOffset)
    (hbound : ∀ i ∈ ids, (cfg.imt i).1 < cfg.chunkNum)
    (hcap : (workingSet cfg ids).length ≤ cfg.cudaChunkNum) :
    (cudaPrepareIds cfg ids q).1 = (prepareIds cfg ids p).1 ∧
    (cudaPrepareIds cfg ids q).2.cachedChunkTable =
      (prepareIds cfg ids p).2.cachedChunkTable ∧
    (cudaPrepareIds cfg ids q).2.chunkIdCudaOffset =
      (prepareIds cfg ids p).2.chunkIdCudaOffset := by
  have hWbound : ∀ c ∈ workingSet cfg ids, c < cfg.chunkNum := by
    intro c hc
    rcases workingSet_mem.mp hc with ⟨i, hi, rfl⟩
    exact hbound i hi
  have hflagiff := hg.2.1
  have hflagfun : ∀ c ∈ workingSet cfg ids,
      (!chunkInCuda q.cachedChunkTable c) = p.chunkFlag c := by
    intro c _
    rw [htab]
    cases hpf : p.chunkFlag c with
    | false =>
      rw [(hflagiff c).mp hpf]
      rfl
    | true =>
      have hnr : ¬ chunkInCuda p.cachedChunkTable c = true := by
        intro hr
        have h2 := (hflagiff c).mpr hr
        rw [hpf] at h2
        cases h2
      rw [Bool.eq_false_iff.mpr hnr]
      rfl
  have hfil : ((workingSet cfg ids).filter fun c => !chunkInCuda q.cachedChunkTable c) =
      ((workingSet cfg ids).filter fun c => p.chunkFlag c) :=
    List.filter_congr hflagfun
  obtain ⟨e1, e2, e3, e4⟩ := cudaPrepareChunks_equiv
    ((workingSet cfg ids).filter fun c => p.chunkFlag c)
    { p with
      evictBacklist := workingSet cfg ids,
      numHitsHistory := p.numHitsHistory ++
        [(workingSet cfg ids).length -
          ((workingSet cfg ids).filter fun c => p.chunkFlag c).length],
      numMissHistory := p.numMissHistory ++
        [((workingSet cfg ids).filter fun c => p.chunkFlag c).length],
      numWriteBackHistory := p.numWriteBackHistory ++ [0] }
    { q with evictBacklist := workingSet cfg ids }
    hg htab hoffm rfl (fun c hc => List.mem_of_mem_filter hc)
    (fun c hc => hWbound c (List.mem_of_mem_filter hc))
  obtain ⟨g1, g2, g3, g4, g5, g6, g7, g8⟩ := good_prepareChunks
    ((workingSet cfg ids).filter fun c => p.chunkFlag c)
    { p with
      evictBacklist := workingSet cfg ids,
      numHitsHistory := p.numHitsHistory ++
        [(workingSet cfg ids).length -
          ((workingSet cfg ids).filter fun c => p.chunkFlag c).length],
      numMissHistory := p.numMissHistory ++
        [((workingSet cfg ids).filter fun c => p.chunkFlag c).length],
      numWriteBackHistory := p.numWriteBackHistory ++ [0] }
    hg (fun c hc => List.mem_of_mem_filter hc)
    (fun c hc => hWbound c (List.mem_of_mem_filter hc))
  unfold prepareIds cudaPrepareIds
  rw [if_neg (show ¬ cfg.cudaChunkNum < (workingSet cfg ids).length by omega)]
  simp only []
  rw [hfil]
  cases hEP : prepareChunksOnCuda cfg
      ((workingSet cfg ids).filter fun c => p.chunkFlag c)
      { p with
        evictBacklist := workingSet cfg ids,
        numHitsHistory := p.numHitsHistory ++
          [(workingSet cfg ids).length -
            ((workingSet cfg ids).filter fun c => p.chunkFlag c).length],
        numMissHistory := p.numMissHistory ++
          [((workingSet cfg ids).filter fun c => p.chunkFlag c).length],
        numWriteBackHistory := p.numWriteBackHistory ++ [0] } with
  | mk resP sMidP =>
    cases hEQ : cudaPrepareChunks cfg
        ((workingSet cfg ids).filter fun c => p.chunkFlag c)
        { q with evictBacklist := workingSet cfg ids } with
    | mk resQ sMidQ =>
      rw [hEP, hEQ] at e1 e2 e3 e4
      rw [hEP] at g1 g6 g8
      replace e1 : resQ = resP := e1
      replace e2 : sMidQ.cachedChunkTable = sMidP.cachedChunkTable := e2
      replace e3 : sMidQ.chunkIdCudaOffset = sMidP.chunkIdCudaOffset := e3
      subst e1
      cases resQ with
      | some e => exact ⟨rfl, e2, e3⟩
      | none =>
        replace g1 : Good cfg sMidP := g1
        replace g6 : ∀ d : Nat,
            chunkInCuda p.cachedChunkTable d = true → d ∈ workingSet cfg ids →
            chunkInCuda sMidP.cachedChunkTable d = true := g6
        replace g8 : ∀ c ∈ (workingSet cfg ids).filter (fun c => p.chunkFlag c),
            chunkInCuda sMidP.cachedChunkTable c = true := g8 rfl
        have hresW : ∀ c ∈ workingSet cfg ids,
            chunkInCuda sMidP.cachedChunkTable c = true := by
          intro c hc
          by_cases hflag : p.chunkFlag c = true
          · exact g8 c (List.mem_filter.mpr ⟨hc, by simpa using hflag⟩)
          · exact g6 c ((hflagiff c).mp (Bool.eq_false_iff.mpr hflag)) hc
        have haddr : ∀ i ∈ ids, cudaAddressOf cfg sMidQ i =
            addressOf cfg { sMidP with evictBacklist := ([] : List Nat) } i := by
          intro i hi
          have hres := hresW _ (workingSet_mem.mpr ⟨i, hi, rfl⟩)
          show (lookupKey sMidQ.chunkIdCudaOffset (cfg.imt i).1).getD 0 +
              ((cfg.imt i).2 : Int) = sMidP.cct (cfg.imt i).1 + ((cfg.imt i).2 : Int)
          rw [e3, lookupKey_eq_cct g1 hres]
          rfl
        refine ⟨?_, e2, e3⟩
        show Except.ok (ids.map fun i => cudaAddressOf cfg sMidQ i) =
          Except.ok (ids.map fun i =>
            addressOf cfg { sMidP with evictBacklist := ([] : List Nat) } i)
        exact congrArg Except.ok (List.map_congr_left haddr)

/-- a `ChunkCUDAWeightMgr` state with chunk 0 resident in the single slot and
an empty backlist. -/
def qFull : CudaState Int :=
  { (cudaPrepareIds cfgB [0] qInit).2 with evictBacklist := [] }

/-- C10 counterexample: with one slot and a two-chunk batch, ChunkParamMgr
raises CapacityExceeded without mutating anything, while ChunkCUDAWeightMgr
(which has no capacity assert) admits chunk 0 and then raises
EvictionImpossible, leaving a mutated table and a populated backlist; and its
`_admit`, when it must evict first, admits into slot `-1` with device offset
`-chunk_size` instead of the freed slot 0. -/
theorem cuda_param_divergence :
    prepareIds cfgB [0, 1] sInit = (.error .capacityExceeded, sInit) ∧
    (cudaPrepareIds cfgB [0, 1] qInit).1 = .error .evictionImpossible ∧
    (cudaPrepareIds cfgB [0, 1] qInit).2.cachedChunkTable = [(0, 0, 0)] ∧
    (cudaPrepareIds cfgB [0, 1] qInit).2.evictBacklist = [0, 1] ∧
    (∃ q2 : CudaState Int, cudaAdmitChunk cfgB 1 qFull = .ok q2 ∧
      q2.cachedChunkTable = [(-1, 1, -1)]) := by
  refine ⟨rfl, rfl, by decide, by decide, ?_⟩
  exact ⟨(cudaAdmitChunk cfgB 1 qFull).toOption.getD qFull, rfl, by decide⟩

theorem cuda_param_prepare_ids_agree_witness :
    (cudaPrepareIds cfgA [0, 1, 2] qInit).1 = (prepareIds cfgA [0, 1, 2] sInit).1 ∧
    (cudaPrepareIds cfgA [0, 1, 2] qInit).2.cachedChunkTable =
      (prepareIds cfgA [0, 1, 2] sInit).2.cachedChunkTable ∧
    (cudaPrepareIds cfgA [0, 1, 2] qInit).2.chunkIdCudaOffset =
      (prepareIds cfgA [0, 1, 2] sInit).2.chunkIdCudaOffset :=
  cuda_param_prepare_ids_agree cfgA [0, 1, 2] sInit qInit (good_mk0 cfgA _ _ _)
    rfl rfl (by decide) (by decide)

end CacheEmbedding
